import Mathlib

/-!
# gean: state transition, attestation buffers, gossipsub message id, sync retry

A shallow embedding of `chain/statetransition/transition.go` (`ProcessSlot`,
`ProcessSlots`, `ProcessBlockHeader`, `ProcessBlock`, `StateTransition`), of
`chain/forkchoice/attestation.go` (`ProcessAttestation`, `processAttestationLocked`,
`validateAttestationLocked`), of `networking/gossipsub/message_id.go`
(`computeMessageID`) and of `networking/sync/blocks.go` (`requestBlocksWithRetry`),
and the properties of these functions.

Conventions of the embedding:

* `uint64` values are natural numbers; every arithmetic operation of the source
  on them is reduced modulo `2 ^ 64` (`add64`, `sub64`).
* Go pointers to records (`*types.State`, `*types.BlockHeader`,
  `*types.Checkpoint`) are the records themselves; `state.Copy()` is a deep copy
  and is the identity on values.
* A Go `error` is a value of `STFError`; a function returning `(*State, error)`
  returns `Except STFError State`.
* The `for s.Slot < targetSlot` loop of `ProcessSlots` is run with a fuel
  argument: `none` means that the fuel ran out before the loop ended.
* A method that changes its receiver (`processAttestationLocked` on the store)
  takes the store and returns the store after the call; a Go map is a function
  from keys to `Option`, and `delete` sets a key to `none`.
* A method that acts on the outside (`requestBlocksWithRetry`: requests, timers,
  the context) takes the outcomes of these actions as an argument and returns its
  result together with the events it caused, in order.
-/

namespace Gean

/-! ## Data model -/

/-- The modulus of `uint64` arithmetic. -/
def U64 : Nat := 2 ^ 64

/-- Addition on `uint64`, wrapping around. -/
def add64 (a b : Nat) : Nat := (a + b) % U64

/-- Subtraction on `uint64`, wrapping around. -/
def sub64 (a b : Nat) : Nat := (a + U64 - b % U64) % U64

/-- Modelled from the spec: the `types` package is not among the sources. A root is
a 32-byte identifier; it is held as the number its 32 bytes spell. -/
abbrev Bytes32 := Fin (2 ^ 256)

/-- Modelled from the spec: `types.ZeroHash`, the all-zero root, which denotes
"unset". -/
def ZeroHash : Bytes32 := 0

/-- Modelled from the spec: `types.Checkpoint`, a `{Root, Slot}` pair. -/
structure Checkpoint where
  Root : Bytes32
  Slot : Nat
deriving DecidableEq, Repr

/-- Modelled from the spec: `types.BlockHeader`. -/
structure BlockHeader where
  Slot : Nat
  ProposerIndex : Nat
  ParentRoot : Bytes32
  BodyRoot : Bytes32
  StateRoot : Bytes32
deriving DecidableEq, Repr

/-- Modelled from the spec: `types.AttestationData`. -/
structure AttestationData where
  Slot : Nat
  Source : Checkpoint
  Target : Checkpoint
deriving DecidableEq, Repr

/-- Modelled from the spec: `types.Attestation`. -/
structure Attestation where
  ValidatorID : Nat
  Data : AttestationData
deriving DecidableEq, Repr

/-- Modelled from the spec: `types.BlockBody`, the ordered attestations of a block. -/
structure BlockBody where
  Attestations : List Attestation
deriving DecidableEq, Repr

/-- Modelled from the spec: `types.Block`, the header fields and the body. -/
structure Block where
  Slot : Nat
  ProposerIndex : Nat
  ParentRoot : Bytes32
  StateRoot : Bytes32
  Body : BlockBody
deriving DecidableEq, Repr

/-- Modelled from the spec: a validator record. The transition reads only the
length of the validator list, so a record is stood for by a number. -/
abbrev Validator := Nat

/-- Modelled from the spec: `types.State`, with the fields the spec lists.
`JustifiedSlots` is the bit sequence itself, one `Bool` per bit. -/
structure State where
  Slot : Nat
  LatestBlockHeader : BlockHeader
  Validators : List Validator
  LatestJustified : Checkpoint
  LatestFinalized : Checkpoint
  HistoricalBlockHashes : List Bytes32
  JustifiedSlots : List Bool
deriving DecidableEq, Repr

/-- Modelled from the spec: the `HashTreeRoot` methods of `types.State`,
`types.BlockHeader` and `types.BlockBody` are not among the sources; the three
functions are parameters of the embedding. The source drops their error result. -/
structure Hasher where
  state : State → Bytes32
  header : BlockHeader → Bytes32
  body : BlockBody → Bytes32

/-- The errors of the state transition, one constructor per `fmt.Errorf` of
`transition.go`, with the values the message prints. `processSlots` and
`processBlock` are the two wrappers of `StateTransition`. -/
inductive STFError where
  | targetNotAfter (targetSlot stateSlot : Nat)
  | slotMismatch (blockSlot stateSlot : Nat)
  | nonIncreasing (blockSlot headerSlot : Nat)
  | notProposer (proposerIndex slot : Nat)
  | parentMismatch
  | processSlots (err : STFError)
  | processBlock (err : STFError)
  | invalidStateRoot (computed got : Bytes32)
deriving DecidableEq, Repr

/-! ## Helpers that the source calls and that are not among the sources -/

/-- Modelled from the spec: `IsProposer(validatorIndex, slot, numValidators)` is
not among the sources; the spec gives the round-robin rule
`block.ProposerIndex == block.Slot mod len(state.Validators)`. The spec gives the rule
no value for an empty validator list; here `slot % 0` is `slot`. -/
def IsProposer (validatorIndex slot numValidators : Nat) : Bool :=
  validatorIndex == slot % numValidators

/-- Modelled from the spec: `AppendBit(bits, b)` is not among the sources; the spec
says it appends one bit to the bit sequence. -/
def AppendBit (bits : List Bool) (b : Bool) : List Bool :=
  bits ++ [b]

/-! ## `transition.go` -/

/-- The function `ProcessSlot`: if the latest block header has a zero state root, the root of
the current state is cached into that header. -/
def ProcessSlot (H : Hasher) (state : State) : State :=
  if state.LatestBlockHeader.StateRoot = ZeroHash then
    let stateRoot := H.state state
    let out := state
    { out with LatestBlockHeader := { out.LatestBlockHeader with StateRoot := stateRoot } }
  else
    state

/-- One pass through the body of the loop of `ProcessSlots`:
`s = ProcessSlot(s); out := s.Copy(); out.Slot = s.Slot + 1; s = out`. -/
def processSlotsBody (H : Hasher) (s : State) : State :=
  let s := ProcessSlot H s
  let out := s
  { out with Slot := add64 s.Slot 1 }

/-- The loop `for s.Slot < targetSlot { ... }` of `ProcessSlots`, run for at most
`fuel` passes; `none` when the guard still holds after `fuel` passes. -/
def processSlotsLoop (H : Hasher) : Nat → State → Nat → Option State
  | 0, s, targetSlot => if s.Slot < targetSlot then none else some s
  | fuel + 1, s, targetSlot =>
    if s.Slot < targetSlot then processSlotsLoop H fuel (processSlotsBody H s) targetSlot
    else some s

/-- The function `ProcessSlots`: advances the state through empty slots up to `targetSlot`. -/
def ProcessSlots (H : Hasher) (fuel : Nat) (state : State) (targetSlot : Nat) :
    Option (Except STFError State) :=
  if state.Slot ≥ targetSlot then
    some (.error (.targetNotAfter targetSlot state.Slot))
  else
    match processSlotsLoop H fuel state targetSlot with
    | none => none
    | some s => some (.ok s)

/-- The loop `for i := uint64(0); i < numEmpty; i++ { ... }` of
`ProcessBlockHeader`: each pass appends a zero root and an unset bit. -/
def fillEmptySlots : Nat → State → State
  | 0, out => out
  | n + 1, out =>
    fillEmptySlots n
      { out with
        HistoricalBlockHashes := out.HistoricalBlockHashes ++ [ZeroHash]
        JustifiedSlots := AppendBit out.JustifiedSlots false }

/-- The part of `ProcessBlockHeader` after its four checks (from `out := state.Copy()`
to the new latest header): the genesis special case, the parent root and its
justified bit, the empty slots, the new header with a zero state root. -/
def applyBlockHeader (H : Hasher) (state : State) (block : Block) : State :=
  let out := state
  let parentRoot := block.ParentRoot
  let out :=
    if state.LatestBlockHeader.Slot = 0 then
      { out with
        LatestJustified := { Root := parentRoot, Slot := state.LatestJustified.Slot }
        LatestFinalized := { Root := parentRoot, Slot := state.LatestFinalized.Slot } }
    else out
  let out := { out with HistoricalBlockHashes := out.HistoricalBlockHashes ++ [parentRoot] }
  let out :=
    { out with
      JustifiedSlots := AppendBit out.JustifiedSlots (state.LatestBlockHeader.Slot == 0) }
  let numEmpty := sub64 (sub64 block.Slot state.LatestBlockHeader.Slot) 1
  let out := fillEmptySlots numEmpty out
  let bodyRoot := H.body block.Body
  { out with
    LatestBlockHeader :=
      { Slot := block.Slot
        ProposerIndex := block.ProposerIndex
        ParentRoot := block.ParentRoot
        BodyRoot := bodyRoot
        StateRoot := ZeroHash } }

/-- The function `ProcessBlockHeader`: validates the block header and updates the header-linked
state. `uint64(len(state.Validators))` is the length of the list: a Go length is a
non-negative `int`, which the conversion keeps. -/
def ProcessBlockHeader (H : Hasher) (state : State) (block : Block) : Except STFError State :=
  if block.Slot ≠ state.Slot then
    .error (.slotMismatch block.Slot state.Slot)
  else if block.Slot ≤ state.LatestBlockHeader.Slot then
    .error (.nonIncreasing block.Slot state.LatestBlockHeader.Slot)
  else if !IsProposer block.ProposerIndex state.Slot state.Validators.length then
    .error (.notProposer block.ProposerIndex state.Slot)
  else
    let expectedParent := H.header state.LatestBlockHeader
    if block.ParentRoot ≠ expectedParent then
      .error .parentMismatch
    else
      .ok (applyBlockHeader H state block)

/-- The function `ProcessBlock`: header, then attestations. `ProcessAttestations` is not among
the sources and is the parameter `PA`. -/
def ProcessBlock (H : Hasher) (PA : State → List Attestation → State) (state : State)
    (block : Block) : Except STFError State :=
  match ProcessBlockHeader H state block with
  | .error err => .error err
  | .ok s => .ok (PA s block.Body.Attestations)

/-- The function `StateTransition`: the complete state transition for a block. The metrics
calls of the source have no effect on the result and are left out. -/
def StateTransition (H : Hasher) (PA : State → List Attestation → State) (fuel : Nat)
    (state : State) (block : Block) : Option (Except STFError State) :=
  match ProcessSlots H fuel state block.Slot with
  | none => none
  | some (.error err) => some (.error (.processSlots err))
  | some (.ok s) =>
    match ProcessBlockHeader H s block with
    | .error err => some (.error (.processBlock err))
    | .ok s =>
      let s := PA s block.Body.Attestations
      let computedRoot := H.state s
      if block.StateRoot ≠ computedRoot then
        some (.error (.invalidStateRoot computedRoot block.StateRoot))
      else
        some (.ok s)

/-! ## Concrete inputs -/

/-- A toy hasher for concrete runs: every root is a small number read off the
hashed value, and none is the zero root. -/
def toyHasher : Hasher where
  state := fun s => Fin.ofNat (s.Slot + 10 * s.HistoricalBlockHashes.length + 1)
  header := fun h => Fin.ofNat (h.Slot + 7)
  body := fun b => Fin.ofNat (b.Attestations.length + 3)

/-- A stand-in for `ProcessAttestations` that leaves the state as it is. -/
def noAttestations (s : State) (_ : List Attestation) : State := s

/-- The genesis state of scenario A: slot 0, four validators, an empty history. -/
def genesisState : State where
  Slot := 0
  LatestBlockHeader :=
    { Slot := 0, ProposerIndex := 0, ParentRoot := 0, BodyRoot := 3, StateRoot := 0 }
  Validators := [0, 1, 2, 3]
  LatestJustified := { Root := 0, Slot := 0 }
  LatestFinalized := { Root := 0, Slot := 0 }
  HistoricalBlockHashes := []
  JustifiedSlots := []

/-- The block of scenario A: slot 1, proposed by validator `1 = 1 mod 4`, with the
root of the genesis header as parent and the root of its post-state. -/
def blockA : Block where
  Slot := 1
  ProposerIndex := 1
  ParentRoot := 7
  StateRoot := 12
  Body := { Attestations := [] }

/-- The post-state of scenario A. -/
def stateA : State where
  Slot := 1
  LatestBlockHeader :=
    { Slot := 1, ProposerIndex := 1, ParentRoot := 7, BodyRoot := 3, StateRoot := 0 }
  Validators := [0, 1, 2, 3]
  LatestJustified := { Root := 7, Slot := 0 }
  LatestFinalized := { Root := 7, Slot := 0 }
  HistoricalBlockHashes := [7]
  JustifiedSlots := [true]

/-- The genesis state advanced to slot 1: the state root is cached in the header. -/
def genesisAtSlot1 : State :=
  { genesisState with
    Slot := 1
    LatestBlockHeader := { genesisState.LatestBlockHeader with StateRoot := 1 } }

/-- The state of `genesisAtSlot1` with its justified checkpoint at slot 1: the
latest header is still the genesis header, at slot 0. -/
def justifiedAtSlot1 : State :=
  { genesisAtSlot1 with LatestJustified := { Root := 0, Slot := 1 } }

/-- A block at slot 3 on top of the genesis header: slots 1 and 2 are empty. -/
def blockAt3 : Block where
  Slot := 3
  ProposerIndex := 3
  ParentRoot := 7
  StateRoot := 0
  Body := { Attestations := [] }

/-- The ordering of the checkpoints of a state:
`LatestFinalized.Slot <= LatestJustified.Slot <= Slot`. -/
def CheckpointsOrdered (s : State) : Prop :=
  s.LatestFinalized.Slot ≤ s.LatestJustified.Slot ∧ s.LatestJustified.Slot ≤ s.Slot

instance (s : State) : Decidable (CheckpointsOrdered s) := by
  unfold CheckpointsOrdered; infer_instance

/-- The history-length invariant of a state:
`len(HistoricalBlockHashes) == len(JustifiedSlots) == Slot`. -/
def HistoryMatchesSlot (s : State) : Prop :=
  s.HistoricalBlockHashes.length = s.JustifiedSlots.length ∧
    s.JustifiedSlots.length = s.Slot

instance (s : State) : Decidable (HistoryMatchesSlot s) := by
  unfold HistoryMatchesSlot; infer_instance

/-! ## `chain/forkchoice/attestation.go` -/

/-- Modelled from the spec: the fork-choice `Store` is declared outside the sources.
`Blocks` is the block storage behind `c.Storage.GetBlock`, a lookup from roots to
blocks; the two attestation buffers are lookups from validator ids to attestations
(Go maps: an absent key is `none`); `Time` is a `uint64` in interval units. The mutex
of the store has no part in the value semantics. -/
structure Store where
  Time : Nat
  Head : Bytes32
  Blocks : Bytes32 → Option Block
  States : Bytes32 → Option State
  LatestKnownAttestations : Nat → Option Attestation
  LatestNewAttestations : Nat → Option Attestation

/-- Modelled from the spec: `c.Storage.GetBlock(root)`, the block stored under a
root and whether there is one. -/
def GetBlock (c : Store) (root : Bytes32) : Option Block :=
  c.Blocks root

/-- Modelled from the spec: `types.SignedAttestation`; `ProcessAttestation` reads
only its `Message`. -/
structure SignedAttestation where
  Message : Attestation
deriving DecidableEq, Repr

/-- The method `validateAttestationLocked`: the attestation validation checks. The
method has the store as its receiver, so the store is passed through: the result is
the verdict and the store after the call. `IntervalsPerSlot` stands for the constant
`types.IntervalsPerSlot`, which is declared outside the sources. -/
def validateAttestationLocked (IntervalsPerSlot : Nat) (c : Store) (att : Attestation) :
    Bool × Store :=
  let data := att.Data
  match GetBlock c data.Source.Root with
  | none => (false, c)
  | some sourceBlock =>
    match GetBlock c data.Target.Root with
    | none => (false, c)
    | some targetBlock =>
      if sourceBlock.Slot > targetBlock.Slot then (false, c)
      else if data.Source.Slot > data.Target.Slot then (false, c)
      else if sourceBlock.Slot ≠ data.Source.Slot then (false, c)
      else if targetBlock.Slot ≠ data.Target.Slot then (false, c)
      else
        let currentSlot := c.Time / IntervalsPerSlot
        if data.Slot > add64 currentSlot 1 then (false, c)
        else (true, c)

/-- The method `processAttestationLocked`: validation, then the block path or the
gossip path. The method returns nothing and changes the store it is called on; here
it returns the store after the call. The metrics calls are left out. -/
def processAttestationLocked (IntervalsPerSlot : Nat) (c : Store) (att : Attestation)
    (isFromBlock : Bool) : Store :=
  let data := att.Data
  let validatorID := att.ValidatorID
  let (valid, c) := validateAttestationLocked IntervalsPerSlot c att
  if !valid then c
  else if isFromBlock then
    let c :=
      match c.LatestKnownAttestations validatorID with
      | none =>
        { c with
          LatestKnownAttestations :=
            Function.update c.LatestKnownAttestations validatorID (some att) }
      | some existing =>
        if existing.Data.Slot < data.Slot then
          { c with
            LatestKnownAttestations :=
              Function.update c.LatestKnownAttestations validatorID (some att) }
        else c
    match c.LatestNewAttestations validatorID with
    | none => c
    | some newAtt =>
      if newAtt.Data.Target.Slot ≤ data.Target.Slot then
        { c with
          LatestNewAttestations := Function.update c.LatestNewAttestations validatorID none }
      else c
  else
    let currentSlot := c.Time / IntervalsPerSlot
    if data.Slot > currentSlot then c
    else
      match c.LatestNewAttestations validatorID with
      | none =>
        { c with
          LatestNewAttestations :=
            Function.update c.LatestNewAttestations validatorID (some att) }
      | some existing =>
        if existing.Data.Target.Slot < data.Target.Slot then
          { c with
            LatestNewAttestations :=
              Function.update c.LatestNewAttestations validatorID (some att) }
        else c

/-- The method `ProcessAttestation`: an attestation from the network goes through
`processAttestationLocked` with `isFromBlock = false`. -/
def ProcessAttestation (IntervalsPerSlot : Nat) (c : Store) (sa : SignedAttestation) : Store :=
  processAttestationLocked IntervalsPerSlot c sa.Message false

/-- The attestation-buffer invariant of the spec: a validator present in both buffers
has a gossip entry whose target slot is after the slot of its on-chain entry. -/
def BuffersOrdered (c : Store) : Prop :=
  ∀ v k n, c.LatestKnownAttestations v = some k → c.LatestNewAttestations v = some n →
    n.Data.Target.Slot > k.Data.Slot

/-! ## Concrete inputs for the attestation buffers -/

/-- A block at a given slot; only its slot is read by the validation. -/
def blockAtSlot (slot : Nat) : Block where
  Slot := slot
  ProposerIndex := 0
  ParentRoot := 0
  StateRoot := 0
  Body := { Attestations := [] }

/-- A block storage holding, for every slot below 20, a block of that slot under the
root `100 + slot`. -/
def chainBlocks (root : Bytes32) : Option Block :=
  if 100 ≤ root.val ∧ root.val < 120 then some (blockAtSlot (root.val - 100)) else none

/-- An attestation of a validator at a slot, from the block of `sourceSlot` to the
block of `targetSlot` of `chainBlocks`. -/
def voteAt (validator slot sourceSlot targetSlot : Nat) : Attestation where
  ValidatorID := validator
  Data :=
    { Slot := slot
      Source := { Root := Fin.ofNat (100 + sourceSlot), Slot := sourceSlot }
      Target := { Root := Fin.ofNat (100 + targetSlot), Slot := targetSlot } }

/-- A store over `chainBlocks` with empty buffers at a given time. -/
def emptyStore (time : Nat) : Store where
  Time := time
  Head := 0
  Blocks := chainBlocks
  States := fun _ => none
  LatestKnownAttestations := fun _ => none
  LatestNewAttestations := fun _ => none

/-- The store at time 80 (slot 20 with 4 intervals per slot) after the on-chain vote
of validator 7 at slot 10. -/
def storeWithKnown : Store :=
  processAttestationLocked 4 (emptyStore 80) (voteAt 7 10 3 5) true

/-- The store at time 40 (slot 10 with 4 intervals per slot) after the gossip vote of
validator 7 at slot 6 for the target at slot 6. -/
def storeWithGossip : Store :=
  processAttestationLocked 4 (emptyStore 40) (voteAt 7 6 3 6) false

/-- The store of scenario C: at time 40, after the gossip vote `att1` of validator 7
with target slot 5. -/
def storeScenarioC : Store :=
  processAttestationLocked 4 (emptyStore 40) (voteAt 7 5 3 5) false

/-! ## `networking/gossipsub/message_id.go` -/

/-- The part of the gossipsub message `pb.Message` (a library type) that
`computeMessageID` reads: the data bytes and the optional topic, a string held as its
bytes. A byte is a natural number below 256. -/
structure Message where
  Data : List Nat
  Topic : Option (List Nat)
deriving DecidableEq, Repr

/-- The getter `msg.GetTopic()` of the library type: the topic, or the empty string
when there is none. -/
def GetTopic (msg : Message) : List Nat :=
  match msg.Topic with
  | some topic => topic
  | none => []

/-- The domain of a message whose data is not valid snappy. -/
def messageDomainInvalidSnappy : List Nat := [0x00, 0x00, 0x00, 0x00]

/-- The domain of a message whose data is valid snappy. -/
def messageDomainValidSnappy : List Nat := [0x01, 0x00, 0x00, 0x00]

/-- The library function `binary.LittleEndian.PutUint64` on a fresh 8-byte slice:
byte `i` is `byte(v >> (8 * i))`. -/
def PutUint64 (v : Nat) : List Nat :=
  [v % 256, v / 2 ^ 8 % 256, v / 2 ^ 16 % 256, v / 2 ^ 24 % 256, v / 2 ^ 32 % 256,
    v / 2 ^ 40 % 256, v / 2 ^ 48 % 256, v / 2 ^ 56 % 256]

/-- The number that a byte sequence spells as a little-endian integer. -/
def littleEndianValue : List Nat → Nat
  | [] => 0
  | b :: rest => b + 256 * littleEndianValue rest

/-- The function `computeMessageID`: the 20-byte message id for gossipsub
deduplication. The library functions `snappy.Decode` (`none` when it returns an
error) and SHA-256 (`sha256.New`, the `Write` calls and `Sum(nil)`: the digest of the
bytes written, in order) are parameters. The Go string returned is held as its bytes. -/
def computeMessageID (snappyDecode : List Nat → Option (List Nat))
    (sha256 : List Nat → List Nat) (msg : Message) : List Nat :=
  let (domain, data) :=
    match snappyDecode msg.Data with
    | some decoded => (messageDomainValidSnappy, decoded)
    | none => (messageDomainInvalidSnappy, msg.Data)
  let topic := GetTopic msg
  let topicBytes := topic
  let topicLen := PutUint64 (topicBytes.length % U64)
  (sha256 (domain ++ topicLen ++ topicBytes ++ data)).take 20

/-- A toy decoder for concrete runs: data that starts with the byte 255 decodes to
the rest, other data does not decode. -/
def toySnappyDecode : List Nat → Option (List Nat)
  | 255 :: rest => some rest
  | _ => none

/-- A toy digest for concrete runs: 32 bytes, each the sum of the input modulo 256. -/
def toySha256 (input : List Nat) : List Nat :=
  List.replicate 32 (input.sum % 256)

/-! ## `networking/sync/blocks.go` and `networking/sync/types.go` -/

/-- The constant `maxSyncRetries` of `types.go`. -/
def maxSyncRetries : Nat := 3

/-- The library constant `time.Second`, in nanoseconds, the unit of `time.Duration`. -/
def Second : Nat := 1000000000

/-- The constant `baseRetryDelay` of `types.go`. -/
def baseRetryDelay : Nat := 1 * Second

/-- What `requestBlocksWithRetry` does to the outside, in order: a completed wait
`<-time.After(delay)` and a call of `s.streamHandler.RequestBlocksByRoot`, with the
value of `attempt` at the call. The logger calls are left out. -/
inductive SyncEvent where
  | wait (delay : Nat)
  | request (attempt : Nat)
deriving DecidableEq, Repr

/-- The outside of `requestBlocksWithRetry`. `RequestBlocksByRoot attempt` is the
outcome of the call made in the pass with that value of `attempt` (each pass makes one
call, so this is the sequence of request outcomes); `ctxDone attempt` is `some err`
when, in the `select` before that pass, `s.ctx.Done()` is taken, with `err` the value
of `s.ctx.Err()`, and `none` when the timer is taken. -/
structure SyncEnv (β ε : Type) where
  RequestBlocksByRoot : Nat → Except ε β
  ctxDone : Nat → Option ε

/-- The errors that `requestBlocksWithRetry` returns: the error of the context, and
`fmt.Errorf("after %d retries: %w", maxSyncRetries, lastErr)`, which wraps `lastErr`
(`none` is Go's `nil`). -/
inductive SyncError (ε : Type) where
  | ctx (err : ε)
  | afterRetries (retries : Nat) (lastErr : Option ε)
deriving DecidableEq, Repr

/-- The loop `for attempt := 0; attempt <= maxSyncRetries; attempt++ { ... }` of
`requestBlocksWithRetry`, run for at most `fuel` evaluations of its guard, from the
given values of `attempt` and `lastErr` and the events so far; `none` when the fuel
runs out. The statement after the loop is the `else` branch of the guard. -/
def requestBlocksLoop {β ε : Type} (env : SyncEnv β ε) :
    Nat → Nat → Option ε → List SyncEvent →
      Option (Except (SyncError ε) β × List SyncEvent)
  | 0, _, _, _ => none
  | fuel + 1, attempt, lastErr, trace =>
    if attempt ≤ maxSyncRetries then
      let waited : Except ε (List SyncEvent) :=
        if attempt > 0 then
          let delay := baseRetryDelay * 2 ^ (attempt - 1)
          match env.ctxDone attempt with
          | some err => .error err
          | none => .ok (trace ++ [.wait delay])
        else .ok trace
      match waited with
      | .error err => some (.error (.ctx err), trace)
      | .ok trace =>
        let trace := trace ++ [.request attempt]
        match env.RequestBlocksByRoot attempt with
        | .ok blocks => some (.ok blocks, trace)
        | .error err => requestBlocksLoop env fuel (attempt + 1) (some err) trace
    else
      some (.error (.afterRetries maxSyncRetries lastErr), trace)

/-- The method `requestBlocksWithRetry`: `RequestBlocksByRoot` with exponential
backoff retry. The result is what the method returns and the events it caused. -/
def requestBlocksWithRetry {β ε : Type} (env : SyncEnv β ε) (fuel : Nat) :
    Option (Except (SyncError ε) β × List SyncEvent) :=
  requestBlocksLoop env fuel 0 none []

/-- The number of calls of `RequestBlocksByRoot` among the events. -/
def requestCount : List SyncEvent → Nat
  | [] => 0
  | .request _ :: rest => requestCount rest + 1
  | .wait _ :: rest => requestCount rest

/-- An outside where every request fails, with the attempt number as the error, and
the context is never done. -/
def alwaysFailing : SyncEnv Nat Nat where
  RequestBlocksByRoot := fun attempt => .error attempt
  ctxDone := fun _ => none

/-- An outside where the requests fail until the given attempt, which returns the
blocks `42`, and the context is never done. -/
def succeedsAt (k : Nat) : SyncEnv Nat Nat where
  RequestBlocksByRoot := fun attempt => if attempt = k then .ok 42 else .error attempt
  ctxDone := fun _ => none

/-- A hasher for concrete runs whose state root is the slot number: the root of a
state at slot 0 is the zero root. -/
def slotHasher : Hasher where
  state := fun s => Fin.ofNat s.Slot
  header := fun h => Fin.ofNat (h.Slot + 7)
  body := fun b => Fin.ofNat (b.Attestations.length + 3)

/-! ## Lemmas on the slot loop -/

theorem ProcessSlot_slot (H : Hasher) (s : State) : (ProcessSlot H s).Slot = s.Slot := by
  unfold ProcessSlot; split <;> rfl

theorem processSlotsBody_slot (H : Hasher) (s : State) :
    (processSlotsBody H s).Slot = add64 s.Slot 1 := by
  simp [processSlotsBody, ProcessSlot_slot]

theorem iterate_slot (H : Hasher) (k : Nat) : ∀ s : State, s.Slot + k < U64 →
    ((processSlotsBody H)^[k] s).Slot = s.Slot + k := by
  induction k with
  | zero => intro s _; rfl
  | succ k ih =>
    intro s h
    rw [Function.iterate_succ_apply]
    have hs : (processSlotsBody H s).Slot = s.Slot + 1 := by
      rw [processSlotsBody_slot]; unfold add64; exact Nat.mod_eq_of_lt (by omega)
    rw [ih _ (by omega), hs]; omega

theorem processSlotsLoop_iterate (H : Hasher) (k : Nat) : ∀ (fuel : Nat) (s : State),
    s.Slot + k < U64 → k ≤ fuel →
    processSlotsLoop H fuel s (s.Slot + k) = some ((processSlotsBody H)^[k] s) := by
  induction k with
  | zero =>
    intro fuel s _ _
    cases fuel <;> simp [processSlotsLoop]
  | succ k ih =>
    intro fuel s h hf
    obtain ⟨fuel, rfl⟩ : ∃ n, fuel = n + 1 := ⟨fuel - 1, by omega⟩
    have hs : (processSlotsBody H s).Slot = s.Slot + 1 := by
      rw [processSlotsBody_slot]; unfold add64; exact Nat.mod_eq_of_lt (by omega)
    have hlt : s.Slot < s.Slot + (k + 1) := by omega
    rw [processSlotsLoop, if_pos hlt, Function.iterate_succ_apply]
    have := ih fuel (processSlotsBody H s) (by omega) (by omega)
    rw [hs] at this
    rw [← this]; congr 1; omega

theorem processSlotsLoop_none (H : Hasher) (fuel : Nat) : ∀ (k : Nat) (s : State),
    s.Slot + k < U64 → fuel < k →
    processSlotsLoop H fuel s (s.Slot + k) = none := by
  induction fuel with
  | zero =>
    intro k s _ hk
    simp [processSlotsLoop]; omega
  | succ fuel ih =>
    intro k s h hk
    obtain ⟨k, rfl⟩ : ∃ n, k = n + 1 := ⟨k - 1, by omega⟩
    have hs : (processSlotsBody H s).Slot = s.Slot + 1 := by
      rw [processSlotsBody_slot]; unfold add64; exact Nat.mod_eq_of_lt (by omega)
    have hlt : s.Slot < s.Slot + (k + 1) := by omega
    rw [processSlotsLoop, if_pos hlt]
    have := ih k (processSlotsBody H s) (by omega) (by omega)
    rw [hs] at this
    rw [← this]; congr 1; omega


theorem ProcessSlots_ok (H : Hasher) (fuel : Nat) (s : State) (targetSlot : Nat)
    (hlt : s.Slot < targetSlot) (ht : targetSlot < U64) (hf : targetSlot - s.Slot ≤ fuel) :
    ProcessSlots H fuel s targetSlot =
      some (.ok ((processSlotsBody H)^[targetSlot - s.Slot] s)) := by
  have h := processSlotsLoop_iterate H (targetSlot - s.Slot) fuel s (by omega) hf
  have e : s.Slot + (targetSlot - s.Slot) = targetSlot := by omega
  rw [e] at h
  unfold ProcessSlots
  rw [if_neg (by omega), h]

theorem ProcessSlots_none (H : Hasher) (fuel : Nat) (s : State) (targetSlot : Nat)
    (hlt : s.Slot < targetSlot) (ht : targetSlot < U64) (hf : fuel < targetSlot - s.Slot) :
    ProcessSlots H fuel s targetSlot = none := by
  have h := processSlotsLoop_none H fuel (targetSlot - s.Slot) s (by omega) hf
  have e : s.Slot + (targetSlot - s.Slot) = targetSlot := by omega
  rw [e] at h
  unfold ProcessSlots
  rw [if_neg (by omega), h]

theorem ProcessSlots_error_iff (H : Hasher) (fuel : Nat) (s : State) (targetSlot : Nat) :
    (∃ e, ProcessSlots H fuel s targetSlot = some (.error e)) ↔ targetSlot ≤ s.Slot := by
  unfold ProcessSlots
  constructor
  · rintro ⟨e, he⟩
    by_contra hc
    rw [if_neg (by omega)] at he
    cases hl : processSlotsLoop H fuel s targetSlot <;> rw [hl] at he <;> simp at he
  · intro h
    exact ⟨_, if_pos h⟩

/-- Every pass of the loop body changes only `Slot` and the state root of the
latest header. -/
theorem iterate_shape (H : Hasher) (k : Nat) : ∀ s : State, ∃ r : Bytes32,
    (processSlotsBody H)^[k] s =
      { s with
        Slot := ((processSlotsBody H)^[k] s).Slot
        LatestBlockHeader := { s.LatestBlockHeader with StateRoot := r } } := by
  induction k with
  | zero => intro s; exact ⟨s.LatestBlockHeader.StateRoot, rfl⟩
  | succ k ih =>
    intro s
    rw [Function.iterate_succ_apply]
    obtain ⟨r, hr⟩ := ih (processSlotsBody H s)
    refine ⟨r, ?_⟩
    rw [hr]
    unfold processSlotsBody ProcessSlot
    split <;> rfl

theorem iterate_of_root_ne (H : Hasher) (k : Nat) : ∀ s : State,
    s.LatestBlockHeader.StateRoot ≠ ZeroHash → s.Slot + k < U64 →
    (processSlotsBody H)^[k] s = { s with Slot := s.Slot + k } := by
  induction k with
  | zero => intro s _ _; rfl
  | succ k ih =>
    intro s hne h
    have hb : processSlotsBody H s = { s with Slot := s.Slot + 1 } := by
      unfold processSlotsBody ProcessSlot
      rw [if_neg hne]
      simp only [add64]
      rw [Nat.mod_eq_of_lt (by omega)]
    rw [Function.iterate_succ_apply, hb, ih { s with Slot := s.Slot + 1 } hne (by simp; omega)]
    simp [Nat.add_assoc, Nat.add_comm 1 k]

theorem fillEmptySlots_eq (n : Nat) : ∀ out : State,
    fillEmptySlots n out =
      { out with
        HistoricalBlockHashes := out.HistoricalBlockHashes ++ List.replicate n ZeroHash
        JustifiedSlots := out.JustifiedSlots ++ List.replicate n false } := by
  induction n with
  | zero => intro out; simp [fillEmptySlots]
  | succ n ih =>
    intro out
    rw [fillEmptySlots, ih]
    simp [AppendBit, List.replicate_succ]

theorem sub64_of_le {a b : Nat} (hb : b ≤ a) (ha : a < U64) : sub64 a b = a - b := by
  unfold sub64
  rw [Nat.mod_eq_of_lt (show b < U64 by omega)]
  have : a + U64 - b = (a - b) + U64 := by omega
  rw [this, Nat.add_mod_right, Nat.mod_eq_of_lt (by omega)]


/-! ## The claims -/

/-- C1: whenever `StateTransition` returns a state, the root of that state is the
block's `StateRoot`; whenever the state reached by `ProcessSlots` up to the block's
slot, then `ProcessBlockHeader`, then `ProcessAttestations` has a root other than the
block's `StateRoot`, `StateTransition` returns the "invalid state root" error and no
state, and when the roots agree it returns that state; with a block slot in `uint64`
and fuel for `block.Slot - state.Slot` passes the function returns. -/
theorem StateTransition_state_root (H : Hasher) (PA : State → List Attestation → State)
    (fuel : Nat) (s : State) (b : Block) :
    (∀ s', StateTransition H PA fuel s b = some (.ok s') → H.state s' = b.StateRoot) ∧
    (∀ s1 s2, ProcessSlots H fuel s b.Slot = some (.ok s1) →
      ProcessBlockHeader H s1 b = .ok s2 →
      (H.state (PA s2 b.Body.Attestations) ≠ b.StateRoot →
        StateTransition H PA fuel s b =
          some (.error (.invalidStateRoot (H.state (PA s2 b.Body.Attestations)) b.StateRoot))) ∧
      (H.state (PA s2 b.Body.Attestations) = b.StateRoot →
        StateTransition H PA fuel s b = some (.ok (PA s2 b.Body.Attestations)))) ∧
    (b.Slot < U64 → b.Slot - s.Slot ≤ fuel → StateTransition H PA fuel s b ≠ none) := by
  refine ⟨?_, ?_, ?_⟩
  · intro s' h
    cases h1 : ProcessSlots H fuel s b.Slot with
    | none => simp [StateTransition, h1] at h
    | some r =>
      cases r with
      | error e => simp [StateTransition, h1] at h
      | ok s1 =>
        cases h2 : ProcessBlockHeader H s1 b with
        | error e => simp [StateTransition, h1, h2] at h
        | ok s2 =>
          by_cases hr : b.StateRoot = H.state (PA s2 b.Body.Attestations)
          · simp [StateTransition, h1, h2, hr] at h
            rw [← h, hr]
          · simp [StateTransition, h1, h2, hr] at h
  · intro s1 s2 h1 h2
    constructor
    · intro hne
      simp [StateTransition, h1, h2, Ne.symm hne]
    · intro heq
      simp [StateTransition, h1, h2, heq]
  · intro hb hf
    unfold StateTransition
    by_cases hlt : s.Slot < b.Slot
    · rw [ProcessSlots_ok H fuel s b.Slot hlt hb hf]
      simp only []
      split
      · simp
      · split <;> simp
    · have : ProcessSlots H fuel s b.Slot = some (.error (.targetNotAfter b.Slot s.Slot)) := by
        unfold ProcessSlots; rw [if_pos (by omega)]
      rw [this]; simp

/-- C1, at a concrete input: the block of scenario A is accepted from the genesis
state and the root of the returned state is the block's `StateRoot`. -/
theorem StateTransition_state_root_witness :
    StateTransition toyHasher noAttestations 1 genesisState blockA = some (.ok stateA) ∧
    toyHasher.state stateA = blockA.StateRoot :=
  ⟨rfl, (StateTransition_state_root toyHasher noAttestations 1 genesisState blockA).1 stateA rfl⟩


/-- C2: `ProcessBlockHeader` succeeds exactly when the four checks hold (the block's
slot is the state's slot, it is after the latest header's slot, the proposer index
is the slot modulo the number of validators, the parent root is the root of the
latest header), and its error is that of the first check that fails, in this order:
slot mismatch, non-increasing, not proposer, parent mismatch. At state slot 1 with 4
validators a block of that slot with proposer index 2 fails with "not proposer",
whatever its parent root is. -/
theorem ProcessBlockHeader_checks (H : Hasher) (s : State) (b : Block) :
    ((∃ s', ProcessBlockHeader H s b = .ok s') ↔
      (b.Slot = s.Slot ∧ b.Slot > s.LatestBlockHeader.Slot ∧
        b.ProposerIndex = b.Slot % s.Validators.length ∧
        b.ParentRoot = H.header s.LatestBlockHeader)) ∧
    (b.Slot ≠ s.Slot →
      ProcessBlockHeader H s b = .error (.slotMismatch b.Slot s.Slot)) ∧
    (b.Slot = s.Slot → b.Slot ≤ s.LatestBlockHeader.Slot →
      ProcessBlockHeader H s b = .error (.nonIncreasing b.Slot s.LatestBlockHeader.Slot)) ∧
    (b.Slot = s.Slot → b.Slot > s.LatestBlockHeader.Slot →
      b.ProposerIndex ≠ b.Slot % s.Validators.length →
      ProcessBlockHeader H s b = .error (.notProposer b.ProposerIndex s.Slot)) ∧
    (b.Slot = s.Slot → b.Slot > s.LatestBlockHeader.Slot →
      b.ProposerIndex = b.Slot % s.Validators.length →
      b.ParentRoot ≠ H.header s.LatestBlockHeader →
      ProcessBlockHeader H s b = .error .parentMismatch) ∧
    (s.Slot = 1 → s.Validators.length = 4 → b.ProposerIndex = 2 →
      b.Slot = s.Slot → b.Slot > s.LatestBlockHeader.Slot →
      ProcessBlockHeader H s b = .error (.notProposer 2 1)) := by
  have e1 : b.Slot ≠ s.Slot →
      ProcessBlockHeader H s b = .error (.slotMismatch b.Slot s.Slot) := by
    intro h; unfold ProcessBlockHeader; rw [if_pos h]
  have e2 : b.Slot = s.Slot → b.Slot ≤ s.LatestBlockHeader.Slot →
      ProcessBlockHeader H s b = .error (.nonIncreasing b.Slot s.LatestBlockHeader.Slot) := by
    intro h1 h2; unfold ProcessBlockHeader; rw [if_neg (by simp [h1]), if_pos h2]
  have e3 : b.Slot = s.Slot → b.Slot > s.LatestBlockHeader.Slot →
      b.ProposerIndex ≠ b.Slot % s.Validators.length →
      ProcessBlockHeader H s b = .error (.notProposer b.ProposerIndex s.Slot) := by
    intro h1 h2 h3
    unfold ProcessBlockHeader
    rw [if_neg (by simp [h1]), if_neg (by omega), if_pos (by simp [IsProposer, ← h1, h3])]
  have e4 : b.Slot = s.Slot → b.Slot > s.LatestBlockHeader.Slot →
      b.ProposerIndex = b.Slot % s.Validators.length →
      b.ParentRoot ≠ H.header s.LatestBlockHeader →
      ProcessBlockHeader H s b = .error .parentMismatch := by
    intro h1 h2 h3 h4
    unfold ProcessBlockHeader
    rw [if_neg (by simp [h1]), if_neg (by omega), if_neg (by simp [IsProposer, ← h1, h3])]
    simp only []
    rw [if_pos h4]
  refine ⟨⟨?_, ?_⟩, e1, e2, e3, e4, ?_⟩
  · rintro ⟨s', hs'⟩
    by_cases h1 : b.Slot = s.Slot
    · by_cases h2 : b.Slot > s.LatestBlockHeader.Slot
      · by_cases h3 : b.ProposerIndex = b.Slot % s.Validators.length
        · by_cases h4 : b.ParentRoot = H.header s.LatestBlockHeader
          · exact ⟨h1, h2, h3, h4⟩
          · rw [e4 h1 h2 h3 h4] at hs'; cases hs'
        · rw [e3 h1 h2 h3] at hs'; cases hs'
      · rw [e2 h1 (by omega)] at hs'; cases hs'
    · rw [e1 h1] at hs'; cases hs'
  · rintro ⟨h1, h2, h3, h4⟩
    unfold ProcessBlockHeader
    rw [if_neg (by simp [h1]), if_neg (by omega), if_neg (by simp [IsProposer, ← h1, h3])]
    simp only []
    rw [if_neg (by simp [h4])]
    exact ⟨_, rfl⟩
  · intro hs hv hp h1 h2
    have := e3 h1 h2 (by rw [h1, hs, hv, hp]; decide)
    rw [hp, hs] at this
    exact this

/-- C2, at a concrete input: the block of scenario A is accepted at slot 1 of the
genesis chain, and the same block with proposer index 2 fails with "not proposer". -/
theorem ProcessBlockHeader_checks_witness :
    (∃ s', ProcessBlockHeader toyHasher genesisAtSlot1 blockA = .ok s') ∧
    ProcessBlockHeader toyHasher genesisAtSlot1 { blockA with ProposerIndex := 2 } =
      .error (.notProposer 2 1) :=
  ⟨(ProcessBlockHeader_checks toyHasher genesisAtSlot1 blockA).1.2
      ⟨rfl, by decide, by decide, by decide⟩,
    (ProcessBlockHeader_checks toyHasher genesisAtSlot1
      { blockA with ProposerIndex := 2 }).2.2.2.2.2 rfl rfl rfl rfl (by decide)⟩

/-- C3: `ProcessSlots` returns its error exactly when `targetSlot <= state.Slot`.
For a `uint64` target after the state's slot the loop ends after exactly
`targetSlot - state.Slot` passes: fewer passes leave the guard true, that many (or
any larger allowance) return the state after that many passes of the loop body; the
guard `Slot < targetSlot` holds before each of these passes and the returned
state's slot is `targetSlot`. -/
theorem ProcessSlots_iterations (H : Hasher) (s : State) (targetSlot : Nat)
    (ht : targetSlot < U64) :
    (∀ fuel, (∃ e, ProcessSlots H fuel s targetSlot = some (.error e)) ↔
      targetSlot ≤ s.Slot) ∧
    (s.Slot < targetSlot →
      (∀ fuel, fuel < targetSlot - s.Slot → ProcessSlots H fuel s targetSlot = none) ∧
      (∀ fuel, targetSlot - s.Slot ≤ fuel →
        ProcessSlots H fuel s targetSlot =
          some (.ok ((processSlotsBody H)^[targetSlot - s.Slot] s))) ∧
      (∀ j, j < targetSlot - s.Slot → ((processSlotsBody H)^[j] s).Slot < targetSlot) ∧
      ((processSlotsBody H)^[targetSlot - s.Slot] s).Slot = targetSlot) := by
  refine ⟨fun fuel => ProcessSlots_error_iff H fuel s targetSlot, fun hlt => ⟨?_, ?_, ?_, ?_⟩⟩
  · intro fuel hf
    exact ProcessSlots_none H fuel s targetSlot hlt ht hf
  · intro fuel hf
    exact ProcessSlots_ok H fuel s targetSlot hlt ht hf
  · intro j hj
    rw [iterate_slot H j s (by omega)]; omega
  · rw [iterate_slot H _ s (by omega)]; omega

/-- C3, at a concrete input: from the genesis state to slot 3 the loop needs three
passes, two are not enough, and the state returned is at slot 3. -/
theorem ProcessSlots_iterations_witness :
    ProcessSlots toyHasher 2 genesisState 3 = none ∧
    ProcessSlots toyHasher 3 genesisState 3 =
      some (.ok ((processSlotsBody toyHasher)^[3] genesisState)) ∧
    ((processSlotsBody toyHasher)^[3] genesisState).Slot = 3 :=
  have h := (ProcessSlots_iterations toyHasher genesisState 3 (by decide)).2 (by decide)
  ⟨h.1 2 (by decide), h.2.1 3 (by decide), h.2.2.2⟩


theorem processSlotsBody_of_root_zero (H : Hasher) (s : State)
    (hz : s.LatestBlockHeader.StateRoot = ZeroHash) (h : s.Slot + 1 < U64) :
    processSlotsBody H s =
      { s with
        Slot := s.Slot + 1
        LatestBlockHeader := { s.LatestBlockHeader with StateRoot := H.state s } } := by
  unfold processSlotsBody ProcessSlot
  rw [if_pos hz]
  simp only [add64]
  rw [Nat.mod_eq_of_lt h]

/-- From a zero `StateRoot`, the `StateRoot` after `k` passes of the loop body is
still zero exactly when the root of the state is zero at each of the `k` slots. -/
theorem iterate_root_zero_iff (H : Hasher) (k : Nat) : ∀ s : State,
    s.LatestBlockHeader.StateRoot = ZeroHash → s.Slot + k < U64 →
    (((processSlotsBody H)^[k] s).LatestBlockHeader.StateRoot = ZeroHash ↔
      ∀ j, j < k → H.state { s with Slot := s.Slot + j } = ZeroHash) := by
  induction k with
  | zero =>
    intro s hz _
    constructor
    · intro _ j hj; omega
    · intro _; exact hz
  | succ k ih =>
    intro s hz h
    rw [Function.iterate_succ_apply, processSlotsBody_of_root_zero H s hz (by omega)]
    by_cases h0 : H.state s = ZeroHash
    · have hb : ({ s with
            Slot := s.Slot + 1
            LatestBlockHeader := { s.LatestBlockHeader with StateRoot := H.state s } } : State) =
          { s with Slot := s.Slot + 1 } := by
        rw [h0, ← hz]
      rw [hb, ih { s with Slot := s.Slot + 1 } hz (by simp; omega)]
      constructor
      · intro hall j hj
        cases j with
        | zero => exact h0
        | succ j =>
          have := hall j (by omega)
          simp only [Nat.add_assoc, Nat.add_comm 1 j] at this
          exact this
      · intro hall j hj
        have := hall (j + 1) (by omega)
        simp only [Nat.add_assoc, Nat.add_comm 1 j]
        exact this
    · constructor
      · intro hr
        rw [iterate_of_root_ne H k _ h0 (by simp; omega)] at hr
        exact absurd hr h0
      · intro hall
        exact absurd (hall 0 (by omega)) h0

/-- C4, as the code has it: for a `uint64` target after the state's slot,
`ProcessSlots` returns the input state with `Slot` set to `targetSlot` and the latest
header's `StateRoot` set to the root of the input state when it was zero, and left as
it was when it was not, with no other field changed, exactly when one of these holds:
one slot is advanced; the `StateRoot` was not zero; the root of the input state is not
the zero root; or the root of the state is the zero root at every slot from its own to
`targetSlot - 1`. In the remaining case a later pass writes the `StateRoot` again. -/
theorem ProcessSlots_fills_once (H : Hasher) (fuel : Nat) (s : State) (targetSlot : Nat)
    (hlt : s.Slot < targetSlot) (ht : targetSlot < U64) (hf : targetSlot - s.Slot ≤ fuel) :
    ProcessSlots H fuel s targetSlot =
      some (.ok
        { s with
          Slot := targetSlot
          LatestBlockHeader :=
            { s.LatestBlockHeader with
              StateRoot :=
                if s.LatestBlockHeader.StateRoot = ZeroHash then H.state s
                else s.LatestBlockHeader.StateRoot } }) ↔
      (targetSlot = s.Slot + 1 ∨ s.LatestBlockHeader.StateRoot ≠ ZeroHash ∨
        H.state s ≠ ZeroHash ∨
        ∀ j, j < targetSlot - s.Slot → H.state { s with Slot := s.Slot + j } = ZeroHash) := by
  rw [ProcessSlots_ok H fuel s targetSlot hlt ht hf]
  simp only [Option.some.injEq, Except.ok.injEq]
  obtain ⟨r, hr⟩ := iterate_shape H (targetSlot - s.Slot) s
  have hslot := iterate_slot H (targetSlot - s.Slot) s (by omega)
  have hts : s.Slot + (targetSlot - s.Slot) = targetSlot := by omega
  rw [hts] at hslot
  have hroot : ((processSlotsBody H)^[targetSlot - s.Slot] s).LatestBlockHeader.StateRoot = r := by
    rw [hr]
  rw [hslot] at hr
  by_cases hz : s.LatestBlockHeader.StateRoot = ZeroHash
  · have hA := iterate_root_zero_iff H (targetSlot - s.Slot) s hz (by omega)
    rw [hroot] at hA
    simp only [if_pos hz]
    have key : (processSlotsBody H)^[targetSlot - s.Slot] s =
          { s with
            Slot := targetSlot
            LatestBlockHeader := { s.LatestBlockHeader with StateRoot := H.state s } } ↔
        r = H.state s := by
      constructor
      · intro he
        rw [← hroot, he]
      · intro he
        rw [hr, he]
    rw [key]
    constructor
    · intro he
      by_cases h0 : H.state s = ZeroHash
      · exact Or.inr (Or.inr (Or.inr (hA.mp (he.trans h0))))
      · exact Or.inr (Or.inr (Or.inl h0))
    · rintro (h1 | h2 | h3 | h4)
      · have hk : targetSlot - s.Slot = 1 := by omega
        have h1' : (processSlotsBody H)^[1] s = processSlotsBody H s := rfl
        rw [← hroot, hk, h1', processSlotsBody_of_root_zero H s hz (by omega)]
      · exact absurd hz h2
      · obtain ⟨k, hk⟩ : ∃ k, targetSlot - s.Slot = k + 1 :=
          ⟨targetSlot - s.Slot - 1, by omega⟩
        rw [← hroot, hk, Function.iterate_succ_apply,
          processSlotsBody_of_root_zero H s hz (by omega),
          iterate_of_root_ne H k _ h3 (by simp; omega)]
      · have h0 : H.state s = ZeroHash := h4 0 (by omega)
        rw [hA.mpr h4, h0]
  · simp only [if_neg hz]
    constructor
    · intro _; exact Or.inr (Or.inl hz)
    · intro _
      rw [iterate_of_root_ne H (targetSlot - s.Slot) s hz (by omega), hts]

/-- C4, at a concrete input: advancing the genesis state by three slots writes the
root of the genesis state into the header once and changes nothing but the slot. -/
theorem ProcessSlots_fills_once_witness :
    ProcessSlots toyHasher 3 genesisState 3 =
      some (.ok
        { genesisState with
          Slot := 3
          LatestBlockHeader :=
            { genesisState.LatestBlockHeader with StateRoot := toyHasher.state genesisState } }) :=
  (ProcessSlots_fills_once toyHasher 3 genesisState 3 (by decide) (by decide) (by decide)).mpr
    (Or.inr (Or.inr (Or.inl (by decide))))

/-- C4 as stated fails: with a hasher whose state root is the slot number, the genesis
state has root zero; two slots on, the latest header's `StateRoot` is 1, the root of
the state at slot 1 written by the second pass, and not the root of the input state. -/
theorem ProcessSlots_fills_once_counterexample :
    genesisState.LatestBlockHeader.StateRoot = ZeroHash ∧
    genesisState.Slot < 2 ∧
    slotHasher.state genesisState = 0 ∧
    ProcessSlots slotHasher 2 genesisState 2 =
      some (.ok
        { genesisState with
          Slot := 2
          LatestBlockHeader := { genesisState.LatestBlockHeader with StateRoot := 1 } }) ∧
    ProcessSlots slotHasher 2 genesisState 2 ≠
      some (.ok
        { genesisState with
          Slot := 2
          LatestBlockHeader :=
            { genesisState.LatestBlockHeader with
              StateRoot := slotHasher.state genesisState } }) := by
  refine ⟨rfl, by decide, rfl, rfl, ?_⟩
  intro h
  have h1 : ProcessSlots slotHasher 2 genesisState 2 =
      some (.ok
        { genesisState with
          Slot := 2
          LatestBlockHeader := { genesisState.LatestBlockHeader with StateRoot := 1 } }) := rfl
  rw [h1] at h
  simp only [Option.some.injEq, Except.ok.injEq] at h
  have h2 := congrArg (fun t : State => t.LatestBlockHeader.StateRoot) h
  revert h2
  decide


/-- C5: when the latest header's `StateRoot` is the zero hash, `ProcessSlot` returns
the input state with that field set to the root of the input state and nothing else
changed; otherwise it returns the input state. -/
theorem ProcessSlot_fills_root (H : Hasher) (s : State) :
    (s.LatestBlockHeader.StateRoot = ZeroHash →
      ProcessSlot H s =
        { s with LatestBlockHeader := { s.LatestBlockHeader with StateRoot := H.state s } }) ∧
    (s.LatestBlockHeader.StateRoot ≠ ZeroHash → ProcessSlot H s = s) := by
  constructor
  · intro h; unfold ProcessSlot; rw [if_pos h]
  · intro h; unfold ProcessSlot; rw [if_neg h]

/-- C5, at a concrete input: the genesis header has a zero state root and gets the
root of the genesis state; a second call changes nothing. -/
theorem ProcessSlot_fills_root_witness :
    ProcessSlot toyHasher genesisState =
      { genesisState with
        LatestBlockHeader := { genesisState.LatestBlockHeader with StateRoot := 1 } } ∧
    ProcessSlot toyHasher (ProcessSlot toyHasher genesisState) =
      ProcessSlot toyHasher genesisState :=
  ⟨(ProcessSlot_fills_root toyHasher genesisState).1 rfl,
    (ProcessSlot_fills_root toyHasher (ProcessSlot toyHasher genesisState)).2 (by decide)⟩


/-! ## Lemmas on the header step -/

theorem processSlotsLoop_never (H : Hasher) (targetSlot : Nat) (ht : U64 ≤ targetSlot)
    (fuel : Nat) : ∀ s : State, s.Slot < targetSlot →
    processSlotsLoop H fuel s targetSlot = none := by
  have hpos : 0 < U64 := by decide
  induction fuel with
  | zero => intro s h; simp [processSlotsLoop, h]
  | succ fuel ih =>
    intro s h
    rw [processSlotsLoop, if_pos h]
    apply ih
    rw [processSlotsBody_slot]
    unfold add64
    exact lt_of_lt_of_le (Nat.mod_lt _ hpos) ht

/-- What a successful `ProcessSlots` leaves of the input state. -/
theorem ProcessSlots_ok_fields (H : Hasher) (fuel : Nat) (s s1 : State) (targetSlot : Nat)
    (h1 : ProcessSlots H fuel s targetSlot = some (.ok s1)) :
    s.Slot < targetSlot ∧ targetSlot < U64 ∧ targetSlot - s.Slot ≤ fuel ∧
    s1.Slot = targetSlot ∧
    s1.LatestBlockHeader.Slot = s.LatestBlockHeader.Slot ∧
    s1.Validators = s.Validators ∧
    s1.LatestJustified = s.LatestJustified ∧
    s1.LatestFinalized = s.LatestFinalized ∧
    s1.HistoricalBlockHashes = s.HistoricalBlockHashes ∧
    s1.JustifiedSlots = s.JustifiedSlots := by
  have hlt : s.Slot < targetSlot := by
    by_contra hc
    have : ProcessSlots H fuel s targetSlot = some (.error (.targetNotAfter targetSlot s.Slot)) := by
      unfold ProcessSlots; rw [if_pos (by omega)]
    rw [this] at h1; cases h1
  have ht : targetSlot < U64 := by
    by_contra hc
    have hn := processSlotsLoop_never H targetSlot (by omega) fuel s hlt
    unfold ProcessSlots at h1
    rw [if_neg (by omega), hn] at h1
    cases h1
  have hf : targetSlot - s.Slot ≤ fuel := by
    by_contra hc
    rw [ProcessSlots_none H fuel s targetSlot hlt ht (by omega)] at h1
    cases h1
  rw [ProcessSlots_ok H fuel s targetSlot hlt ht hf] at h1
  have hs1 : (processSlotsBody H)^[targetSlot - s.Slot] s = s1 := by
    injection h1 with h1; injection h1
  have hslot := iterate_slot H (targetSlot - s.Slot) s (by omega)
  obtain ⟨r, hr⟩ := iterate_shape H (targetSlot - s.Slot) s
  rw [hs1] at hslot hr
  refine ⟨hlt, ht, hf, by omega, ?_, ?_, ?_, ?_, ?_, ?_⟩ <;> rw [hr]

/-- A successful `ProcessBlockHeader` passed the four checks and returns
`applyBlockHeader`. -/
theorem ProcessBlockHeader_ok (H : Hasher) (s s' : State) (b : Block)
    (h : ProcessBlockHeader H s b = .ok s') :
    b.Slot = s.Slot ∧ s.LatestBlockHeader.Slot < b.Slot ∧ s' = applyBlockHeader H s b := by
  unfold ProcessBlockHeader at h
  split at h
  · cases h
  · split at h
    · cases h
    · split at h
      · cases h
      · simp only [] at h
        split at h
        · cases h
        · rename_i h1 h2 _ _
          injection h with h
          exact ⟨by simpa using h1, by omega, h.symm⟩

theorem applyBlockHeader_fields (H : Hasher) (s : State) (b : Block) :
    (applyBlockHeader H s b).Slot = s.Slot ∧
    (applyBlockHeader H s b).LatestBlockHeader.Slot = b.Slot ∧
    (applyBlockHeader H s b).LatestJustified =
      (if s.LatestBlockHeader.Slot = 0 then
        { Root := b.ParentRoot, Slot := s.LatestJustified.Slot } else s.LatestJustified) ∧
    (applyBlockHeader H s b).LatestFinalized =
      (if s.LatestBlockHeader.Slot = 0 then
        { Root := b.ParentRoot, Slot := s.LatestFinalized.Slot } else s.LatestFinalized) ∧
    (applyBlockHeader H s b).HistoricalBlockHashes =
      s.HistoricalBlockHashes ++ [b.ParentRoot] ++
        List.replicate (sub64 (sub64 b.Slot s.LatestBlockHeader.Slot) 1) ZeroHash ∧
    (applyBlockHeader H s b).JustifiedSlots =
      s.JustifiedSlots ++ [s.LatestBlockHeader.Slot == 0] ++
        List.replicate (sub64 (sub64 b.Slot s.LatestBlockHeader.Slot) 1) false := by
  by_cases h0 : s.LatestBlockHeader.Slot = 0
  · simp only [applyBlockHeader, h0, ↓reduceIte, fillEmptySlots_eq, AppendBit]
    simp
  · simp only [applyBlockHeader, h0, ↓reduceIte, fillEmptySlots_eq, AppendBit]
    simp

theorem numEmpty_eq {a h : Nat} (hlt : h < a) (ha : a < U64) :
    sub64 (sub64 a h) 1 = a - h - 1 := by
  have h1 : (1 : Nat) < U64 := by decide
  rw [sub64_of_le (by omega) ha, sub64_of_le (by omega) (by omega)]


/-! ## The claims on the header step -/

/-- C6, as the code has it: for a state whose latest header is at slot 0 and a block
that `ProcessBlockHeader` accepts, the result's `LatestJustified` and
`LatestFinalized` carry the block's parent root and keep the slots the state's
checkpoints had; both are `{block.ParentRoot, 0}`, and equal, when the state's two
checkpoint slots are 0, as in the genesis state. -/
theorem ProcessBlockHeader_genesis_checkpoints (H : Hasher) (s s' : State) (b : Block)
    (h0 : s.LatestBlockHeader.Slot = 0) (hok : ProcessBlockHeader H s b = .ok s') :
    s'.LatestJustified = { Root := b.ParentRoot, Slot := s.LatestJustified.Slot } ∧
    s'.LatestFinalized = { Root := b.ParentRoot, Slot := s.LatestFinalized.Slot } ∧
    (s.LatestJustified.Slot = 0 → s.LatestFinalized.Slot = 0 →
      s'.LatestJustified = { Root := b.ParentRoot, Slot := 0 } ∧
      s'.LatestFinalized = { Root := b.ParentRoot, Slot := 0 } ∧
      s'.LatestJustified = s'.LatestFinalized) := by
  obtain ⟨_, _, rfl⟩ := ProcessBlockHeader_ok H s s' b hok
  obtain ⟨_, _, hj, hf, _, _⟩ := applyBlockHeader_fields H s b
  rw [if_pos h0] at hj hf
  refine ⟨hj, hf, ?_⟩
  intro hj0 hf0
  rw [hj, hf, hj0, hf0]
  exact ⟨rfl, rfl, rfl⟩

/-- C6, at a concrete input: the block of scenario A on the genesis state at slot 1
sets both checkpoints to the genesis root at slot 0. -/
theorem ProcessBlockHeader_genesis_checkpoints_witness :
    stateA.LatestJustified = { Root := 7, Slot := 0 } ∧
    stateA.LatestFinalized = { Root := 7, Slot := 0 } :=
  have h := ProcessBlockHeader_genesis_checkpoints toyHasher genesisAtSlot1 stateA blockA rfl rfl
  ⟨h.1, h.2.1⟩

/-- C6 as stated fails: a state whose latest header is at slot 0 and whose justified
checkpoint is at slot 1 accepts the block of scenario A, and the result's
`LatestJustified` is at slot 1, not at slot 0, and differs from `LatestFinalized`. -/
theorem ProcessBlockHeader_genesis_checkpoints_counterexample :
    justifiedAtSlot1.LatestBlockHeader.Slot = 0 ∧
    ∃ s', ProcessBlockHeader toyHasher justifiedAtSlot1 blockA = .ok s' ∧
      s'.LatestJustified = { Root := 7, Slot := 1 } ∧
      s'.LatestJustified ≠ { Root := blockA.ParentRoot, Slot := 0 } ∧
      s'.LatestJustified ≠ s'.LatestFinalized :=
  ⟨rfl, _, rfl, rfl, by decide, by decide⟩

/-- C7: for a state whose slot is its latest header's slot and a block at
`state.Slot + k` with `k >= 1` in `uint64`, accepted by `ProcessBlockHeader` after
`ProcessSlots` up to the block's slot, the result's `HistoricalBlockHashes` is the old
sequence, the block's parent root, then exactly `k - 1` zero roots, and its
`JustifiedSlots` is the old bits, one bit that is true exactly when the old latest
header is at slot 0, then exactly `k - 1` false bits. The header's slot is below the
block's slot, so the count `block.Slot - LatestBlockHeader.Slot - 1` does not wrap
around and is `k - 1`. With fuel for `k` passes `ProcessSlots` does return a state. -/
theorem ProcessBlockHeader_empty_slots (H : Hasher) (fuel : Nat) (s s1 s2 : State) (b : Block)
    (k : Nat) (hs : s.Slot = s.LatestBlockHeader.Slot) (hk : 1 ≤ k)
    (hb : b.Slot = s.Slot + k)
    (h1 : ProcessSlots H fuel s b.Slot = some (.ok s1))
    (h2 : ProcessBlockHeader H s1 b = .ok s2) :
    s2.HistoricalBlockHashes =
      s.HistoricalBlockHashes ++ [b.ParentRoot] ++ List.replicate (k - 1) ZeroHash ∧
    s2.JustifiedSlots =
      s.JustifiedSlots ++ [s.LatestBlockHeader.Slot == 0] ++ List.replicate (k - 1) false ∧
    s1.LatestBlockHeader.Slot + 1 ≤ b.Slot ∧
    sub64 (sub64 b.Slot s1.LatestBlockHeader.Slot) 1 = b.Slot - s1.LatestBlockHeader.Slot - 1 ∧
    b.Slot - s1.LatestBlockHeader.Slot - 1 = k - 1 ∧
    (∀ n, k ≤ n → ∃ t, ProcessSlots H n s b.Slot = some (.ok t)) := by
  obtain ⟨hlt, ht, _, _, hh, _, _, _, hhist, hjs⟩ := ProcessSlots_ok_fields H fuel s s1 b.Slot h1
  obtain ⟨_, hlt2, rfl⟩ := ProcessBlockHeader_ok H s1 s2 b h2
  obtain ⟨_, _, _, _, eh, ej⟩ := applyBlockHeader_fields H s1 b
  have hn := numEmpty_eq hlt2 ht
  have hk1 : b.Slot - s1.LatestBlockHeader.Slot - 1 = k - 1 := by omega
  refine ⟨?_, ?_, by omega, hn, hk1, ?_⟩
  · rw [eh, hn, hk1, hhist]
  · rw [ej, hn, hk1, hjs, hh]
  · intro n hn
    exact ⟨_, ProcessSlots_ok H n s b.Slot hlt ht (by omega)⟩

/-- C7, at a concrete input: a block at slot 3 on the genesis state leaves two empty
slots: the history is the genesis root and two zero roots, the bits are true, false,
false. -/
theorem ProcessBlockHeader_empty_slots_witness :
    (applyBlockHeader toyHasher ((processSlotsBody toyHasher)^[3] genesisState)
        blockAt3).HistoricalBlockHashes = [7, 0, 0] ∧
    (applyBlockHeader toyHasher ((processSlotsBody toyHasher)^[3] genesisState)
        blockAt3).JustifiedSlots = [true, false, false] :=
  have h := ProcessBlockHeader_empty_slots toyHasher 3 genesisState
    ((processSlotsBody toyHasher)^[3] genesisState)
    (applyBlockHeader toyHasher ((processSlotsBody toyHasher)^[3] genesisState) blockAt3)
    blockAt3 3 rfl (by decide) rfl rfl rfl
  ⟨h.1, h.2.1⟩


/-- C8: for a state with `len(HistoricalBlockHashes) == len(JustifiedSlots) == Slot`
whose slot is its latest header's slot, and every block, if `ProcessBlockHeader`
succeeds on the state returned by `ProcessSlots` up to the block's slot, the result
again has `len(HistoricalBlockHashes) == len(JustifiedSlots) == Slot`, and its slot
is the block's slot and its latest header's slot. -/
theorem ProcessBlockHeader_history_length (H : Hasher) (fuel : Nat) (s s1 s2 : State)
    (b : Block) (hinv : HistoryMatchesSlot s) (hs : s.Slot = s.LatestBlockHeader.Slot)
    (h1 : ProcessSlots H fuel s b.Slot = some (.ok s1))
    (h2 : ProcessBlockHeader H s1 b = .ok s2) :
    HistoryMatchesSlot s2 ∧ s2.Slot = b.Slot ∧ s2.Slot = s2.LatestBlockHeader.Slot := by
  obtain ⟨hlt, ht, _, hslot, hh, _, _, _, hhist, hjs⟩ :=
    ProcessSlots_ok_fields H fuel s s1 b.Slot h1
  obtain ⟨_, hlt2, rfl⟩ := ProcessBlockHeader_ok H s1 s2 b h2
  obtain ⟨es, eh', _, _, eh, ej⟩ := applyBlockHeader_fields H s1 b
  have hn := numEmpty_eq hlt2 ht
  obtain ⟨hi1, hi2⟩ := hinv
  unfold HistoryMatchesSlot
  rw [eh, ej, es, eh', hn, hhist, hjs]
  simp only [List.length_append, List.length_replicate, List.length_singleton]
  omega

/-- C8, at a concrete input: the genesis state has empty histories at slot 0, and
after the block at slot 3 both histories have length 3. -/
theorem ProcessBlockHeader_history_length_witness :
    HistoryMatchesSlot
      (applyBlockHeader toyHasher ((processSlotsBody toyHasher)^[3] genesisState) blockAt3) :=
  (ProcessBlockHeader_history_length toyHasher 3 genesisState
    ((processSlotsBody toyHasher)^[3] genesisState)
    (applyBlockHeader toyHasher ((processSlotsBody toyHasher)^[3] genesisState) blockAt3)
    blockAt3 (by decide) rfl rfl rfl).1

/-- C9, as the code has it: `ProcessSlots` does not touch the two histories. For a
state with `len(HistoricalBlockHashes) == len(JustifiedSlots) == Slot` and a `uint64`
target after its slot, `ProcessSlots` returns a state with the same
`HistoricalBlockHashes` and `JustifiedSlots` and with `Slot == targetSlot`: the two
lengths stay equal to each other and to the old slot, strictly below the new one.
When moreover the input state's slot is its latest header's slot, the equality with
`Slot` holds again after a following successful `ProcessBlockHeader` on the returned
state. -/
theorem ProcessSlots_history_unchanged (H : Hasher) (fuel : Nat) (s : State) (targetSlot : Nat)
    (hinv : HistoryMatchesSlot s) (hlt : s.Slot < targetSlot) (ht : targetSlot < U64)
    (hf : targetSlot - s.Slot ≤ fuel) :
    ∃ s', ProcessSlots H fuel s targetSlot = some (.ok s') ∧
      s'.HistoricalBlockHashes = s.HistoricalBlockHashes ∧
      s'.JustifiedSlots = s.JustifiedSlots ∧
      s'.Slot = targetSlot ∧
      s'.HistoricalBlockHashes.length = s'.JustifiedSlots.length ∧
      s'.JustifiedSlots.length = s.Slot ∧
      s'.JustifiedSlots.length < s'.Slot ∧
      ¬ HistoryMatchesSlot s' ∧
      (s.Slot = s.LatestBlockHeader.Slot →
        ∀ b s2, ProcessBlockHeader H s' b = .ok s2 → HistoryMatchesSlot s2) := by
  have h1 := ProcessSlots_ok H fuel s targetSlot hlt ht hf
  obtain ⟨_, _, _, hslot, hh, _, _, _, hhist, hjs⟩ :=
    ProcessSlots_ok_fields H fuel s _ targetSlot h1
  obtain ⟨hi1, hi2⟩ := hinv
  refine ⟨_, h1, hhist, hjs, hslot, ?_, ?_, ?_, ?_, ?_⟩
  · rw [hhist, hjs]; exact hi1
  · rw [hjs]; exact hi2
  · rw [hjs, hslot]; omega
  · unfold HistoryMatchesSlot
    rw [hjs, hslot]; omega
  · intro hs b s2 h2
    obtain ⟨hb, hlt2, rfl⟩ := ProcessBlockHeader_ok H _ s2 b h2
    obtain ⟨es, _, _, _, eh, ej⟩ :=
      applyBlockHeader_fields H ((processSlotsBody H)^[targetSlot - s.Slot] s) b
    have hn := numEmpty_eq hlt2 (by rw [hb, hslot]; exact ht)
    unfold HistoryMatchesSlot
    rw [eh, ej, es, hn, hhist, hjs]
    simp only [List.length_append, List.length_replicate, List.length_singleton]
    omega

/-- C9, at a concrete input: from the genesis state to slot 3 the histories stay
empty, and after the block at slot 3 both histories have length 3 again. -/
theorem ProcessSlots_history_unchanged_witness :
    ∃ s', ProcessSlots toyHasher 3 genesisState 3 = some (.ok s') ∧
      s'.HistoricalBlockHashes = [] ∧ s'.JustifiedSlots = [] ∧ s'.Slot = 3 ∧
      ∃ s2, ProcessBlockHeader toyHasher s' blockAt3 = .ok s2 ∧ HistoryMatchesSlot s2 :=
  by
  obtain ⟨s', h, hh, hj, hs, _, _, _, _, hr⟩ :=
    ProcessSlots_history_unchanged toyHasher 3 genesisState 3
      (by decide) (by decide) (by decide) (by decide)
  have h' : ProcessSlots toyHasher 3 genesisState 3 =
      some (.ok ((processSlotsBody toyHasher)^[3] genesisState)) := rfl
  rw [h'] at h
  simp only [Option.some.injEq, Except.ok.injEq] at h
  subst h
  have hb : ProcessBlockHeader toyHasher ((processSlotsBody toyHasher)^[3] genesisState)
      blockAt3 =
      .ok (applyBlockHeader toyHasher ((processSlotsBody toyHasher)^[3] genesisState)
        blockAt3) := rfl
  exact ⟨_, h', hh, hj, hs, _, hb, hr rfl blockAt3 _ hb⟩

/-- C9 as stated fails: the genesis state has
`len(HistoricalBlockHashes) == len(JustifiedSlots) == Slot == 0`, and the state that
`ProcessSlots` returns for target slot 1 has slot 1 and empty histories. -/
theorem ProcessSlots_history_counterexample :
    HistoryMatchesSlot genesisState ∧ genesisState.Slot < 1 ∧
    ProcessSlots toyHasher 1 genesisState 1 = some (.ok genesisAtSlot1) ∧
    ¬ HistoryMatchesSlot genesisAtSlot1 :=
  ⟨by decide, by decide, rfl, by decide⟩

/-- C10: if a state has `LatestFinalized.Slot <= LatestJustified.Slot <= Slot`, then
so has the state returned by `ProcessSlot`, every state returned by `ProcessSlots`,
and every state returned by `ProcessBlockHeader`, its genesis case, which replaces
both checkpoints, included. -/
theorem checkpoints_ordered_preserved (H : Hasher) (s : State) (hinv : CheckpointsOrdered s) :
    CheckpointsOrdered (ProcessSlot H s) ∧
    (∀ fuel targetSlot s', ProcessSlots H fuel s targetSlot = some (.ok s') →
      CheckpointsOrdered s') ∧
    (∀ b s', ProcessBlockHeader H s b = .ok s' → CheckpointsOrdered s') := by
  obtain ⟨hi1, hi2⟩ := hinv
  refine ⟨?_, ?_, ?_⟩
  · unfold ProcessSlot
    split
    · exact ⟨hi1, hi2⟩
    · exact ⟨hi1, hi2⟩
  · intro fuel targetSlot s' h1
    obtain ⟨hlt, _, _, hslot, _, _, hj, hf, _, _⟩ :=
      ProcessSlots_ok_fields H fuel s s' targetSlot h1
    unfold CheckpointsOrdered
    rw [hj, hf, hslot]
    omega
  · intro b s' h2
    obtain ⟨_, _, rfl⟩ := ProcessBlockHeader_ok H s s' b h2
    obtain ⟨es, _, ej, ef, _, _⟩ := applyBlockHeader_fields H s b
    unfold CheckpointsOrdered
    rw [ej, ef, es]
    split
    · exact ⟨hi1, hi2⟩
    · exact ⟨hi1, hi2⟩

/-- C10, at a concrete input: the genesis state has ordered checkpoints, and so have
the state after `ProcessSlots` to slot 1 and the state after the block of scenario A,
whose header step is the genesis case. -/
theorem checkpoints_ordered_preserved_witness :
    CheckpointsOrdered (ProcessSlot toyHasher genesisState) ∧
    CheckpointsOrdered genesisAtSlot1 ∧
    CheckpointsOrdered stateA :=
  ⟨(checkpoints_ordered_preserved toyHasher genesisState (by decide)).1,
    (checkpoints_ordered_preserved toyHasher genesisState (by decide)).2.1 1 1
      genesisAtSlot1 rfl,
    (checkpoints_ordered_preserved toyHasher genesisAtSlot1 (by decide)).2.2 blockA stateA rfl⟩


/-! ## The new header -/

theorem applyBlockHeader_header (H : Hasher) (s : State) (b : Block) :
    (applyBlockHeader H s b).LatestBlockHeader =
      { Slot := b.Slot
        ProposerIndex := b.ProposerIndex
        ParentRoot := b.ParentRoot
        BodyRoot := H.body b.Body
        StateRoot := ZeroHash } ∧
    (applyBlockHeader H s b).Validators = s.Validators := by
  by_cases h0 : s.LatestBlockHeader.Slot = 0
  · simp only [applyBlockHeader, h0, ↓reduceIte, fillEmptySlots_eq, AppendBit]
    simp
  · simp only [applyBlockHeader, h0, ↓reduceIte, fillEmptySlots_eq, AppendBit]
    simp

/-- C11: on success `ProcessBlockHeader` replaces `LatestBlockHeader` with exactly
`{block.Slot, block.ProposerIndex, block.ParentRoot, HashTreeRoot(block.Body), zero}`:
the new header's `StateRoot` is zero whatever `block.StateRoot` is, and the state's
`Slot` and `Validators` are those of the input state. -/
theorem ProcessBlockHeader_new_header (H : Hasher) (s s' : State) (b : Block)
    (hok : ProcessBlockHeader H s b = .ok s') :
    s'.LatestBlockHeader =
      { Slot := b.Slot
        ProposerIndex := b.ProposerIndex
        ParentRoot := b.ParentRoot
        BodyRoot := H.body b.Body
        StateRoot := ZeroHash } ∧
    s'.LatestBlockHeader.StateRoot = ZeroHash ∧
    (∀ r, ProcessBlockHeader H s { b with StateRoot := r } = .ok s') ∧
    s'.Slot = s.Slot ∧
    s'.Validators = s.Validators := by
  obtain ⟨_, _, rfl⟩ := ProcessBlockHeader_ok H s s' b hok
  obtain ⟨hh, hv⟩ := applyBlockHeader_header H s b
  obtain ⟨hs, _⟩ := applyBlockHeader_fields H s b
  refine ⟨hh, by rw [hh], ?_, hs, hv⟩
  intro r
  exact hok

/-- C11, at a concrete input: the block of scenario A has state root 12, and the
header that `ProcessBlockHeader` stores for it has a zero state root. -/
theorem ProcessBlockHeader_new_header_witness :
    blockA.StateRoot = 12 ∧
    stateA.LatestBlockHeader =
      { Slot := 1, ProposerIndex := 1, ParentRoot := 7, BodyRoot := 3, StateRoot := 0 } ∧
    stateA.Slot = genesisAtSlot1.Slot ∧ stateA.Validators = genesisAtSlot1.Validators :=
  have h := ProcessBlockHeader_new_header toyHasher genesisAtSlot1 stateA blockA rfl
  ⟨rfl, h.1, h.2.2.2.1, h.2.2.2.2⟩


/-! ## Lemmas on the attestation buffers -/

theorem validateAttestationLocked_snd (ips : Nat) (c : Store) (att : Attestation) :
    (validateAttestationLocked ips c att).2 = c := by
  unfold validateAttestationLocked
  simp only []
  split
  · rfl
  · split
    · rfl
    · split_ifs <;> rfl

theorem validateAttestationLocked_pair (ips : Nat) (c : Store) (att : Attestation) :
    validateAttestationLocked ips c att = ((validateAttestationLocked ips c att).1, c) :=
  Prod.ext rfl (validateAttestationLocked_snd ips c att)

theorem validateAttestationLocked_fst_iff (ips : Nat) (c : Store) (att : Attestation) :
    (validateAttestationLocked ips c att).1 = true ↔
      ∃ sourceBlock targetBlock,
        GetBlock c att.Data.Source.Root = some sourceBlock ∧
        GetBlock c att.Data.Target.Root = some targetBlock ∧
        sourceBlock.Slot ≤ targetBlock.Slot ∧
        att.Data.Source.Slot ≤ att.Data.Target.Slot ∧
        sourceBlock.Slot = att.Data.Source.Slot ∧
        targetBlock.Slot = att.Data.Target.Slot ∧
        att.Data.Slot ≤ add64 (c.Time / ips) 1 := by
  unfold validateAttestationLocked
  simp only []
  cases hs : GetBlock c att.Data.Source.Root with
  | none => simp
  | some sb =>
    cases ht : GetBlock c att.Data.Target.Root with
    | none => simp
    | some tb =>
      simp only [Option.some.injEq, exists_and_left, exists_eq_left']
      split_ifs <;> simp <;> omega

theorem validateAttestationLocked_congr (ips : Nat) (c1 c2 : Store) (att : Attestation)
    (ht : c1.Time = c2.Time) (hb : c1.Blocks = c2.Blocks) :
    (validateAttestationLocked ips c1 att).1 = (validateAttestationLocked ips c2 att).1 := by
  unfold validateAttestationLocked GetBlock
  rw [ht, hb]
  simp only []
  split
  · rfl
  · split
    · rfl
    · split_ifs <;> rfl

theorem processAttestationLocked_invalid (ips : Nat) (c : Store) (att : Attestation)
    (isFromBlock : Bool) (hv : (validateAttestationLocked ips c att).1 = false) :
    processAttestationLocked ips c att isFromBlock = c := by
  unfold processAttestationLocked
  rw [validateAttestationLocked_pair, hv]
  rfl


theorem processAttestationLocked_block (ips : Nat) (c : Store) (att : Attestation)
    (hv : (validateAttestationLocked ips c att).1 = true) :
    processAttestationLocked ips c att true =
      { c with
        LatestKnownAttestations :=
          match c.LatestKnownAttestations att.ValidatorID with
          | none => Function.update c.LatestKnownAttestations att.ValidatorID (some att)
          | some existing =>
            if existing.Data.Slot < att.Data.Slot then
              Function.update c.LatestKnownAttestations att.ValidatorID (some att)
            else c.LatestKnownAttestations
        LatestNewAttestations :=
          match c.LatestNewAttestations att.ValidatorID with
          | none => c.LatestNewAttestations
          | some newAtt =>
            if newAtt.Data.Target.Slot ≤ att.Data.Target.Slot then
              Function.update c.LatestNewAttestations att.ValidatorID none
            else c.LatestNewAttestations } := by
  unfold processAttestationLocked
  rw [validateAttestationLocked_pair, hv]
  simp only [Bool.not_true, Bool.false_eq_true, ↓reduceIte]
  cases hk : c.LatestKnownAttestations att.ValidatorID with
  | none =>
    cases hn : c.LatestNewAttestations att.ValidatorID with
    | none => simp [hn]
    | some n => simp only [hn]; split_ifs <;> rfl
  | some k =>
    cases hn : c.LatestNewAttestations att.ValidatorID with
    | none => simp only []; split_ifs <;> simp [hn]
    | some n => simp only []; split_ifs <;> simp [hn, *]

theorem processAttestationLocked_gossip (ips : Nat) (c : Store) (att : Attestation)
    (hv : (validateAttestationLocked ips c att).1 = true) :
    processAttestationLocked ips c att false =
      { c with
        LatestNewAttestations :=
          if att.Data.Slot > c.Time / ips then c.LatestNewAttestations
          else
            match c.LatestNewAttestations att.ValidatorID with
            | none => Function.update c.LatestNewAttestations att.ValidatorID (some att)
            | some existing =>
              if existing.Data.Target.Slot < att.Data.Target.Slot then
                Function.update c.LatestNewAttestations att.ValidatorID (some att)
              else c.LatestNewAttestations } := by
  unfold processAttestationLocked
  rw [validateAttestationLocked_pair, hv]
  simp only [Bool.not_true, Bool.false_eq_true, ↓reduceIte]
  by_cases hs : att.Data.Slot > c.Time / ips
  · simp only [hs, ↓reduceIte]
  · simp only [hs, ↓reduceIte]
    cases hn : c.LatestNewAttestations att.ValidatorID with
    | none => rfl
    | some n => simp only []; split_ifs <;> rfl

theorem Store_ext (c1 c2 : Store) (h1 : c1.Time = c2.Time) (h2 : c1.Head = c2.Head)
    (h3 : c1.Blocks = c2.Blocks) (h4 : c1.States = c2.States)
    (h5 : c1.LatestKnownAttestations = c2.LatestKnownAttestations)
    (h6 : c1.LatestNewAttestations = c2.LatestNewAttestations) : c1 = c2 := by
  cases c1; cases c2; simp_all

/-- What `processAttestationLocked` never touches, and the entries of the validators
other than the voter. -/
theorem processAttestationLocked_frame (ips : Nat) (c : Store) (att : Attestation)
    (isFromBlock : Bool) :
    (processAttestationLocked ips c att isFromBlock).Time = c.Time ∧
    (processAttestationLocked ips c att isFromBlock).Head = c.Head ∧
    (processAttestationLocked ips c att isFromBlock).Blocks = c.Blocks ∧
    (processAttestationLocked ips c att isFromBlock).States = c.States ∧
    (∀ v, v ≠ att.ValidatorID →
      (processAttestationLocked ips c att isFromBlock).LatestKnownAttestations v =
        c.LatestKnownAttestations v) ∧
    (∀ v, v ≠ att.ValidatorID →
      (processAttestationLocked ips c att isFromBlock).LatestNewAttestations v =
        c.LatestNewAttestations v) := by
  cases hv : (validateAttestationLocked ips c att).1 with
  | false =>
    rw [processAttestationLocked_invalid ips c att isFromBlock hv]
    exact ⟨rfl, rfl, rfl, rfl, fun _ _ => rfl, fun _ _ => rfl⟩
  | true =>
    cases isFromBlock with
    | true =>
      rw [processAttestationLocked_block ips c att hv]
      refine ⟨rfl, rfl, rfl, rfl, ?_, ?_⟩
      · intro v hne
        cases hk : c.LatestKnownAttestations att.ValidatorID with
        | none => simp only []; exact Function.update_noteq hne _ _
        | some k =>
          simp only []
          split_ifs
          · exact Function.update_noteq hne _ _
          · rfl
      · intro v hne
        cases hn : c.LatestNewAttestations att.ValidatorID with
        | none => rfl
        | some n =>
          simp only []
          split_ifs
          · exact Function.update_noteq hne _ _
          · rfl
    | false =>
      rw [processAttestationLocked_gossip ips c att hv]
      refine ⟨rfl, rfl, rfl, rfl, fun _ _ => rfl, ?_⟩
      intro v hne
      simp only []
      split_ifs
      · rfl
      · cases hn : c.LatestNewAttestations att.ValidatorID with
        | none => simp only []; exact Function.update_noteq hne _ _
        | some n =>
          simp only []
          split_ifs
          · exact Function.update_noteq hne _ _
          · rfl


/-- The voter's two entries after the block path. -/
theorem processAttestationLocked_block_self (ips : Nat) (c : Store) (att : Attestation)
    (hv : (validateAttestationLocked ips c att).1 = true) :
    (processAttestationLocked ips c att true).LatestKnownAttestations att.ValidatorID =
      (match c.LatestKnownAttestations att.ValidatorID with
        | none => some att
        | some existing =>
          if existing.Data.Slot < att.Data.Slot then some att else some existing) ∧
    (processAttestationLocked ips c att true).LatestNewAttestations att.ValidatorID =
      (match c.LatestNewAttestations att.ValidatorID with
        | none => none
        | some newAtt =>
          if newAtt.Data.Target.Slot ≤ att.Data.Target.Slot then none else some newAtt) := by
  rw [processAttestationLocked_block ips c att hv]
  constructor
  · cases hk : c.LatestKnownAttestations att.ValidatorID with
    | none => simp only []; exact Function.update_same _ _ _
    | some k =>
      simp only []
      split_ifs
      · exact Function.update_same _ _ _
      · exact hk
  · cases hn : c.LatestNewAttestations att.ValidatorID with
    | none => simp only []; exact hn
    | some n =>
      simp only []
      split_ifs
      · exact Function.update_same _ _ _
      · exact hn

/-- The voter's gossip entry after the gossip path; the on-chain buffer is as it was. -/
theorem processAttestationLocked_gossip_self (ips : Nat) (c : Store) (att : Attestation)
    (hv : (validateAttestationLocked ips c att).1 = true) :
    (processAttestationLocked ips c att false).LatestKnownAttestations =
      c.LatestKnownAttestations ∧
    (processAttestationLocked ips c att false).LatestNewAttestations att.ValidatorID =
      (if att.Data.Slot > c.Time / ips then c.LatestNewAttestations att.ValidatorID
        else
          match c.LatestNewAttestations att.ValidatorID with
          | none => some att
          | some existing =>
            if existing.Data.Target.Slot < att.Data.Target.Slot then some att
            else some existing) := by
  rw [processAttestationLocked_gossip ips c att hv]
  refine ⟨rfl, ?_⟩
  simp only []
  split_ifs
  · rfl
  · cases hn : c.LatestNewAttestations att.ValidatorID with
    | none => simp only []; exact Function.update_same _ _ _
    | some n =>
      simp only []
      split_ifs
      · exact Function.update_same _ _ _
      · exact hn

/-- The voter's entries after `processAttestationLocked` depend on the store only
through `Time`, the block storage and the voter's own two entries. -/
theorem processAttestationLocked_local (ips : Nat) (c1 c2 : Store) (att : Attestation)
    (isFromBlock : Bool) (ht : c1.Time = c2.Time) (hb : c1.Blocks = c2.Blocks)
    (hk : c1.LatestKnownAttestations att.ValidatorID =
      c2.LatestKnownAttestations att.ValidatorID)
    (hn : c1.LatestNewAttestations att.ValidatorID =
      c2.LatestNewAttestations att.ValidatorID) :
    (processAttestationLocked ips c1 att isFromBlock).LatestKnownAttestations att.ValidatorID =
      (processAttestationLocked ips c2 att isFromBlock).LatestKnownAttestations
        att.ValidatorID ∧
    (processAttestationLocked ips c1 att isFromBlock).LatestNewAttestations att.ValidatorID =
      (processAttestationLocked ips c2 att isFromBlock).LatestNewAttestations
        att.ValidatorID := by
  have hc := validateAttestationLocked_congr ips c1 c2 att ht hb
  cases hv : (validateAttestationLocked ips c1 att).1 with
  | false =>
    rw [processAttestationLocked_invalid ips c1 att isFromBlock hv,
      processAttestationLocked_invalid ips c2 att isFromBlock (hc ▸ hv)]
    exact ⟨hk, hn⟩
  | true =>
    have hv2 : (validateAttestationLocked ips c2 att).1 = true := hc ▸ hv
    cases isFromBlock with
    | true =>
      obtain ⟨a1, b1⟩ := processAttestationLocked_block_self ips c1 att hv
      obtain ⟨a2, b2⟩ := processAttestationLocked_block_self ips c2 att hv2
      rw [a1, a2, b1, b2, hk, hn]
      exact ⟨rfl, rfl⟩
    | false =>
      obtain ⟨a1, b1⟩ := processAttestationLocked_gossip_self ips c1 att hv
      obtain ⟨a2, b2⟩ := processAttestationLocked_gossip_self ips c2 att hv2
      rw [a1, a2, b1, b2, hk, hn, ht]
      exact ⟨rfl, rfl⟩


/-! ## The claims on attestation validation and the two buffers -/

/-- C12: `validateAttestationLocked` returns true exactly when the source root and
the target root both resolve to blocks of the store, the source block's slot is at
most the target block's slot, `Source.Slot <= Target.Slot`, the two blocks' slots are
the two checkpoints' slots, and `att.Data.Slot <= currentSlot + 1` with
`currentSlot = Time / IntervalsPerSlot`; the sum is the `uint64` sum of the code, and
it is the plain sum whenever `currentSlot + 1` is within `uint64`. -/
theorem validateAttestationLocked_iff (ips : Nat) (c : Store) (att : Attestation) :
    ((validateAttestationLocked ips c att).1 = true ↔
      ∃ sourceBlock targetBlock,
        GetBlock c att.Data.Source.Root = some sourceBlock ∧
        GetBlock c att.Data.Target.Root = some targetBlock ∧
        sourceBlock.Slot ≤ targetBlock.Slot ∧
        att.Data.Source.Slot ≤ att.Data.Target.Slot ∧
        sourceBlock.Slot = att.Data.Source.Slot ∧
        targetBlock.Slot = att.Data.Target.Slot ∧
        att.Data.Slot ≤ add64 (c.Time / ips) 1) ∧
    (c.Time / ips + 1 < U64 →
      ((validateAttestationLocked ips c att).1 = true ↔
        ∃ sourceBlock targetBlock,
          GetBlock c att.Data.Source.Root = some sourceBlock ∧
          GetBlock c att.Data.Target.Root = some targetBlock ∧
          sourceBlock.Slot ≤ targetBlock.Slot ∧
          att.Data.Source.Slot ≤ att.Data.Target.Slot ∧
          sourceBlock.Slot = att.Data.Source.Slot ∧
          targetBlock.Slot = att.Data.Target.Slot ∧
          att.Data.Slot ≤ c.Time / ips + 1)) := by
  refine ⟨validateAttestationLocked_fst_iff ips c att, ?_⟩
  intro hno
  have h := validateAttestationLocked_fst_iff ips c att
  have e : add64 (c.Time / ips) 1 = c.Time / ips + 1 := by
    unfold add64; exact Nat.mod_eq_of_lt hno
  rw [e] at h
  exact h

/-- C12, at a concrete input: at time 40 with 4 intervals per slot a vote at slot 11
from the block of slot 3 to the block of slot 5 is valid, and a vote whose target root
is not in the store is not. -/
theorem validateAttestationLocked_iff_witness :
    (validateAttestationLocked 4 (emptyStore 40) (voteAt 7 11 3 5)).1 = true ∧
    (validateAttestationLocked 4 (emptyStore 40) (voteAt 7 11 3 30)).1 = false :=
  ⟨((validateAttestationLocked_iff 4 (emptyStore 40) (voteAt 7 11 3 5)).2 (by decide)).2
      ⟨blockAtSlot 3, blockAtSlot 5, rfl, rfl, by decide, by decide, rfl, rfl, by decide⟩,
    by decide⟩


/-- C13, as the code has it: from a store with the attestation-buffer invariant,
after `processAttestationLocked` the invariant still holds for every validator other
than the voter, and for all validators when the attestation fails validation. For a
valid attestation it holds after the block path except exactly when the voter has a
gossip entry whose target slot is after `att.Data.Target.Slot` and at most
`att.Data.Slot` while `att` becomes the voter's on-chain entry (there was none, or one
of a smaller slot); and it holds after the gossip path except exactly when
`att.Data.Slot <= currentSlot`, the voter has no gossip entry, and the voter has an
on-chain entry whose slot is at or after `att.Data.Target.Slot`. -/
theorem processAttestationLocked_buffers (ips : Nat) (c : Store) (att : Attestation)
    (isFromBlock : Bool) (hinv : BuffersOrdered c) :
    (∀ v k n, v ≠ att.ValidatorID →
      (processAttestationLocked ips c att isFromBlock).LatestKnownAttestations v = some k →
      (processAttestationLocked ips c att isFromBlock).LatestNewAttestations v = some n →
      n.Data.Target.Slot > k.Data.Slot) ∧
    ((validateAttestationLocked ips c att).1 = false →
      BuffersOrdered (processAttestationLocked ips c att isFromBlock)) ∧
    ((validateAttestationLocked ips c att).1 = true →
      (BuffersOrdered (processAttestationLocked ips c att true) ↔
        ¬ ∃ n, c.LatestNewAttestations att.ValidatorID = some n ∧
          att.Data.Target.Slot < n.Data.Target.Slot ∧
          n.Data.Target.Slot ≤ att.Data.Slot ∧
          ∀ k, c.LatestKnownAttestations att.ValidatorID = some k →
            k.Data.Slot < att.Data.Slot) ∧
      (BuffersOrdered (processAttestationLocked ips c att false) ↔
        ¬ (att.Data.Slot ≤ c.Time / ips ∧
          c.LatestNewAttestations att.ValidatorID = none ∧
          ∃ k, c.LatestKnownAttestations att.ValidatorID = some k ∧
            att.Data.Target.Slot ≤ k.Data.Slot))) := by
  have others : ∀ f v k n, v ≠ att.ValidatorID →
      (processAttestationLocked ips c att f).LatestKnownAttestations v = some k →
      (processAttestationLocked ips c att f).LatestNewAttestations v = some n →
      n.Data.Target.Slot > k.Data.Slot := by
    intro f v k n hne hk hn
    obtain ⟨_, _, _, _, fk, fn⟩ := processAttestationLocked_frame ips c att f
    rw [fk v hne] at hk
    rw [fn v hne] at hn
    exact hinv v k n hk hn
  refine ⟨others isFromBlock, ?_, ?_⟩
  · intro hv
    rw [processAttestationLocked_invalid ips c att isFromBlock hv]
    exact hinv
  · intro hv
    obtain ⟨bk, bn⟩ := processAttestationLocked_block_self ips c att hv
    obtain ⟨gk, gn⟩ := processAttestationLocked_gossip_self ips c att hv
    refine ⟨⟨?_, ?_⟩, ⟨?_, ?_⟩⟩
    · rintro h ⟨n, hn0, hlt, hle, hrep⟩
      have hn' : (processAttestationLocked ips c att true).LatestNewAttestations
          att.ValidatorID = some n := by
        rw [bn, hn0]
        simp only []
        rw [if_neg (by omega)]
      have hk' : (processAttestationLocked ips c att true).LatestKnownAttestations
          att.ValidatorID = some att := by
        rw [bk]
        cases hk0 : c.LatestKnownAttestations att.ValidatorID with
        | none => rfl
        | some k0 =>
          simp only []
          rw [if_pos (hrep k0 hk0)]
      have := h _ _ _ hk' hn'
      omega
    · intro hno v k n hk hn
      by_cases hne : v = att.ValidatorID
      · subst hne
        rw [bk] at hk
        rw [bn] at hn
        cases hn0 : c.LatestNewAttestations att.ValidatorID with
        | none => rw [hn0] at hn; simp at hn
        | some n0 =>
          rw [hn0] at hn
          simp only [] at hn
          split_ifs at hn with h1
          injection hn with hn
          subst hn
          cases hk0 : c.LatestKnownAttestations att.ValidatorID with
          | none =>
            rw [hk0] at hk
            simp only [] at hk
            injection hk with hk
            subst hk
            by_contra hc
            exact hno ⟨n0, hn0, by omega, by omega, fun k hk => by rw [hk0] at hk; cases hk⟩
          | some k0 =>
            rw [hk0] at hk
            simp only [] at hk
            split_ifs at hk with h2
            · injection hk with hk
              subst hk
              by_contra hc
              refine hno ⟨n0, hn0, by omega, by omega, ?_⟩
              intro k hk
              rw [hk0] at hk
              injection hk with hk
              subst hk
              exact h2
            · injection hk with hk
              subst hk
              exact hinv _ _ _ hk0 hn0
      · exact others true v k n hne hk hn
    · rintro h ⟨hs, hn0, k, hk0, hle⟩
      have hn' : (processAttestationLocked ips c att false).LatestNewAttestations
          att.ValidatorID = some att := by
        rw [gn, if_neg (by omega), hn0]
      have hk' : (processAttestationLocked ips c att false).LatestKnownAttestations
          att.ValidatorID = some k := by
        rw [gk, hk0]
      have := h _ _ _ hk' hn'
      omega
    · intro hno v k n hk hn
      by_cases hne : v = att.ValidatorID
      · subst hne
        rw [gk] at hk
        rw [gn] at hn
        split_ifs at hn with h0
        · exact hinv _ _ _ hk hn
        · cases hn0 : c.LatestNewAttestations att.ValidatorID with
          | none =>
            rw [hn0] at hn
            simp only [] at hn
            injection hn with hn
            subst hn
            by_contra hc
            exact hno ⟨by omega, hn0, k, hk, by omega⟩
          | some n0 =>
            rw [hn0] at hn
            simp only [] at hn
            have hold := hinv _ _ _ hk hn0
            split_ifs at hn with h2
            · injection hn with hn
              subst hn
              omega
            · injection hn with hn
              subst hn
              exact hold
      · exact others false v k n hne hk hn

theorem storeWithKnown_ordered : BuffersOrdered storeWithKnown := by
  intro v k n _ hn
  have h0 : storeWithKnown.LatestNewAttestations v = none := rfl
  rw [h0] at hn
  cases hn

theorem storeWithGossip_ordered : BuffersOrdered storeWithGossip := by
  intro v k n hk _
  have h0 : storeWithGossip.LatestKnownAttestations v = none := rfl
  rw [h0] at hk
  cases hk

theorem storeScenarioC_ordered : BuffersOrdered storeScenarioC := by
  intro v k n hk _
  have h0 : storeScenarioC.LatestKnownAttestations v = none := rfl
  rw [h0] at hk
  cases hk

/-- C13, at a concrete input: in scenario C the on-chain vote of validator 7 at slot 6
with target slot 5 removes its gossip entry with target slot 5 and the invariant
holds; and with an on-chain vote at slot 10, the gossip vote of validator 7 for the
target at slot 11 keeps the invariant. -/
theorem processAttestationLocked_buffers_witness :
    BuffersOrdered (processAttestationLocked 4 storeScenarioC (voteAt 7 6 3 5) true) ∧
    BuffersOrdered (processAttestationLocked 4 storeWithKnown (voteAt 7 12 3 11) false) :=
  ⟨((processAttestationLocked_buffers 4 storeScenarioC (voteAt 7 6 3 5) true
      storeScenarioC_ordered).2.2 (by decide)).1.mpr (by
        rintro ⟨n, hn, hlt, _⟩
        have h0 : storeScenarioC.LatestNewAttestations 7 = some (voteAt 7 5 3 5) := rfl
        rw [show (voteAt 7 6 3 5).ValidatorID = 7 from rfl, h0] at hn
        injection hn with hn
        subst hn
        revert hlt
        decide),
    ((processAttestationLocked_buffers 4 storeWithKnown (voteAt 7 12 3 11) false
      storeWithKnown_ordered).2.2 (by decide)).2.mpr (by
        rintro ⟨_, _, k, hk, hle⟩
        have h0 : storeWithKnown.LatestKnownAttestations 7 = some (voteAt 7 10 3 5) := rfl
        rw [show (voteAt 7 12 3 11).ValidatorID = 7 from rfl, h0] at hk
        injection hk with hk
        subst hk
        revert hle
        decide)⟩

/-- C13 as stated fails on both paths. Gossip path: validator 7 has an on-chain vote
at slot 10 and no gossip entry, and its valid gossip vote at slot 4 for the target at
slot 3 is stored, with target slot 3 not after slot 10. Block path: validator 7 has a
gossip vote for the target at slot 6 and no on-chain entry, and its valid on-chain
vote at slot 7 for the target at slot 5 is stored while the gossip entry stays, with
target slot 6 not after slot 7. -/
theorem processAttestationLocked_buffers_counterexample :
    (BuffersOrdered storeWithKnown ∧
      (validateAttestationLocked 4 storeWithKnown (voteAt 7 4 2 3)).1 = true ∧
      ¬ BuffersOrdered (processAttestationLocked 4 storeWithKnown (voteAt 7 4 2 3) false)) ∧
    (BuffersOrdered storeWithGossip ∧
      (validateAttestationLocked 4 storeWithGossip (voteAt 7 7 3 5)).1 = true ∧
      ¬ BuffersOrdered (processAttestationLocked 4 storeWithGossip (voteAt 7 7 3 5) true)) := by
  refine ⟨⟨storeWithKnown_ordered, by decide, ?_⟩, ⟨storeWithGossip_ordered, by decide, ?_⟩⟩
  · intro h
    have h1 := h 7 (voteAt 7 10 3 5) (voteAt 7 4 2 3) rfl rfl
    revert h1
    decide
  · intro h
    have h1 := h 7 (voteAt 7 7 3 5) (voteAt 7 6 3 6) rfl rfl
    revert h1
    decide


/-- C14: after `processAttestationLocked(a, true)` with a valid attestation `a` of
validator `v`, the gossip buffer has an entry for `v` exactly when it had one before
whose target slot is strictly after `a.Data.Target.Slot`, and then the entry is the
one it had; an entry whose target slot is at most `a.Data.Target.Slot` is removed.
In scenario C (a gossip entry with target slot 5, then the on-chain `a` with slot 6
and target slot 5, and no on-chain entry at slot 6 or later) the on-chain entry of `v`
becomes `a` and the gossip entry of `v` is removed. -/
theorem processAttestationLocked_supersession (ips : Nat) (c : Store) (a : Attestation)
    (hv : (validateAttestationLocked ips c a).1 = true) :
    (((processAttestationLocked ips c a true).LatestNewAttestations a.ValidatorID).isSome ↔
      ∃ n, c.LatestNewAttestations a.ValidatorID = some n ∧
        a.Data.Target.Slot < n.Data.Target.Slot) ∧
    (∀ n, c.LatestNewAttestations a.ValidatorID = some n →
      a.Data.Target.Slot < n.Data.Target.Slot →
      (processAttestationLocked ips c a true).LatestNewAttestations a.ValidatorID = some n) ∧
    (∀ n, c.LatestNewAttestations a.ValidatorID = some n →
      n.Data.Target.Slot ≤ a.Data.Target.Slot →
      (processAttestationLocked ips c a true).LatestNewAttestations a.ValidatorID = none) ∧
    (∀ att1, c.LatestNewAttestations a.ValidatorID = some att1 →
      att1.Data.Target.Slot = 5 → a.Data.Slot = 6 → a.Data.Target.Slot = 5 →
      (∀ k, c.LatestKnownAttestations a.ValidatorID = some k → k.Data.Slot < 6) →
      (processAttestationLocked ips c a true).LatestKnownAttestations a.ValidatorID = some a ∧
      (processAttestationLocked ips c a true).LatestNewAttestations a.ValidatorID = none) := by
  obtain ⟨hk, hn⟩ := processAttestationLocked_block_self ips c a hv
  have keep : ∀ n, c.LatestNewAttestations a.ValidatorID = some n →
      a.Data.Target.Slot < n.Data.Target.Slot →
      (processAttestationLocked ips c a true).LatestNewAttestations a.ValidatorID = some n := by
    intro n h0 hlt
    rw [hn, h0]
    simp only []
    rw [if_neg (by omega)]
  have drop : ∀ n, c.LatestNewAttestations a.ValidatorID = some n →
      n.Data.Target.Slot ≤ a.Data.Target.Slot →
      (processAttestationLocked ips c a true).LatestNewAttestations a.ValidatorID = none := by
    intro n h0 hle
    rw [hn, h0]
    simp only []
    rw [if_pos hle]
  refine ⟨⟨?_, ?_⟩, keep, drop, ?_⟩
  · intro hsome
    cases h0 : c.LatestNewAttestations a.ValidatorID with
    | none => rw [hn, h0] at hsome; simp at hsome
    | some n =>
      by_cases hle : n.Data.Target.Slot ≤ a.Data.Target.Slot
      · rw [drop n h0 hle] at hsome; simp at hsome
      · exact ⟨n, rfl, by omega⟩
  · rintro ⟨n, h0, hlt⟩
    rw [keep n h0 hlt]; rfl
  · intro att1 h0 h5 h6 ht hold
    refine ⟨?_, drop att1 h0 (by omega)⟩
    rw [hk]
    cases hk0 : c.LatestKnownAttestations a.ValidatorID with
    | none => rfl
    | some k =>
      simp only []
      rw [if_pos (by have := hold k hk0; omega)]

/-- C14, at a concrete input, scenario C: the gossip vote of validator 7 with target
slot 5 is in the store, and after its on-chain vote at slot 6 with target slot 5 the
on-chain entry is that vote and the gossip entry is gone. -/
theorem processAttestationLocked_supersession_witness :
    storeScenarioC.LatestNewAttestations 7 = some (voteAt 7 5 3 5) ∧
    (processAttestationLocked 4 storeScenarioC (voteAt 7 6 3 5) true).LatestKnownAttestations 7 =
      some (voteAt 7 6 3 5) ∧
    (processAttestationLocked 4 storeScenarioC (voteAt 7 6 3 5) true).LatestNewAttestations 7 =
      none :=
  have h := (processAttestationLocked_supersession 4 storeScenarioC (voteAt 7 6 3 5)
    (by decide)).2.2.2 (voteAt 7 5 3 5) rfl rfl rfl rfl
    (fun k hk => by
      have h0 : storeScenarioC.LatestKnownAttestations 7 = none := rfl
      rw [show (voteAt 7 6 3 5).ValidatorID = 7 from rfl, h0] at hk
      cases hk)
  ⟨rfl, h.1, h.2⟩

/-- C15: on the block path a valid attestation `att` of validator `v` becomes the
on-chain entry of `v` when `v` had no entry or its entry's slot is strictly before
`att.Data.Slot`; otherwise the on-chain buffer is unchanged, so a stored vote of the
same slot is not replaced. The entries of the other validators are unchanged either
way. -/
theorem processAttestationLocked_block_known (ips : Nat) (c : Store) (att : Attestation)
    (hv : (validateAttestationLocked ips c att).1 = true) :
    (c.LatestKnownAttestations att.ValidatorID = none →
      (processAttestationLocked ips c att true).LatestKnownAttestations att.ValidatorID =
        some att) ∧
    (∀ existing, c.LatestKnownAttestations att.ValidatorID = some existing →
      existing.Data.Slot < att.Data.Slot →
      (processAttestationLocked ips c att true).LatestKnownAttestations att.ValidatorID =
        some att) ∧
    (∀ existing, c.LatestKnownAttestations att.ValidatorID = some existing →
      ¬ existing.Data.Slot < att.Data.Slot →
      (processAttestationLocked ips c att true).LatestKnownAttestations =
        c.LatestKnownAttestations) ∧
    (∀ existing, c.LatestKnownAttestations att.ValidatorID = some existing →
      existing.Data.Slot = att.Data.Slot →
      (processAttestationLocked ips c att true).LatestKnownAttestations att.ValidatorID =
        some existing) ∧
    (∀ v, v ≠ att.ValidatorID →
      (processAttestationLocked ips c att true).LatestKnownAttestations v =
        c.LatestKnownAttestations v) := by
  obtain ⟨hk, _⟩ := processAttestationLocked_block_self ips c att hv
  obtain ⟨_, _, _, _, fk, _⟩ := processAttestationLocked_frame ips c att true
  refine ⟨?_, ?_, ?_, ?_, fk⟩
  · intro h0
    rw [hk, h0]
  · intro e h0 hlt
    rw [hk, h0]
    simp only []
    rw [if_pos hlt]
  · intro e h0 hge
    funext v
    by_cases hne : v = att.ValidatorID
    · subst hne
      rw [hk, h0]
      simp only []
      rw [if_neg hge]
    · exact fk v hne
  · intro e h0 heq
    rw [hk, h0]
    simp only []
    rw [if_neg (by omega)]

/-- C15, at a concrete input: validator 7 has the on-chain vote at slot 10 for the
target at slot 5; a vote at slot 10 for the target at slot 4 does not replace it and
a vote at slot 11 does. -/
theorem processAttestationLocked_block_known_witness :
    (processAttestationLocked 4 storeWithKnown (voteAt 7 10 3 4) true).LatestKnownAttestations 7 =
      some (voteAt 7 10 3 5) ∧
    (processAttestationLocked 4 storeWithKnown (voteAt 7 11 3 4) true).LatestKnownAttestations 7 =
      some (voteAt 7 11 3 4) :=
  ⟨(processAttestationLocked_block_known 4 storeWithKnown (voteAt 7 10 3 4)
      (by decide)).2.2.2.1 (voteAt 7 10 3 5) rfl rfl,
    (processAttestationLocked_block_known 4 storeWithKnown (voteAt 7 11 3 4)
      (by decide)).2.1 (voteAt 7 10 3 5) rfl (by decide)⟩


/-- C16: on the gossip path a valid attestation `att` of validator `v` changes
nothing when `att.Data.Slot > currentSlot = Time / IntervalsPerSlot`, the case
`att.Data.Slot == currentSlot + 1` included; when `att.Data.Slot <= currentSlot` it
becomes the gossip entry of `v` when `v` had no entry or its entry's target slot is
strictly before `att.Data.Target.Slot`, and otherwise nothing changes. The on-chain
buffer is never changed on this path, and `ProcessAttestation` is this path. -/
theorem processAttestationLocked_gossip_path (ips : Nat) (c : Store) (att : Attestation)
    (hv : (validateAttestationLocked ips c att).1 = true) :
    (att.Data.Slot > c.Time / ips → processAttestationLocked ips c att false = c) ∧
    (att.Data.Slot = c.Time / ips + 1 → processAttestationLocked ips c att false = c) ∧
    (att.Data.Slot ≤ c.Time / ips →
      (c.LatestNewAttestations att.ValidatorID = none →
        (processAttestationLocked ips c att false).LatestNewAttestations att.ValidatorID =
          some att) ∧
      (∀ existing, c.LatestNewAttestations att.ValidatorID = some existing →
        existing.Data.Target.Slot < att.Data.Target.Slot →
        (processAttestationLocked ips c att false).LatestNewAttestations att.ValidatorID =
          some att) ∧
      (∀ existing, c.LatestNewAttestations att.ValidatorID = some existing →
        ¬ existing.Data.Target.Slot < att.Data.Target.Slot →
        processAttestationLocked ips c att false = c) ∧
      (∀ v, v ≠ att.ValidatorID →
        (processAttestationLocked ips c att false).LatestNewAttestations v =
          c.LatestNewAttestations v)) ∧
    (processAttestationLocked ips c att false).LatestKnownAttestations =
      c.LatestKnownAttestations ∧
    ProcessAttestation ips c { Message := att } = processAttestationLocked ips c att false := by
  have hg := processAttestationLocked_gossip ips c att hv
  obtain ⟨hk, hn⟩ := processAttestationLocked_gossip_self ips c att hv
  obtain ⟨_, _, _, _, _, fn⟩ := processAttestationLocked_frame ips c att false
  have future : att.Data.Slot > c.Time / ips → processAttestationLocked ips c att false = c := by
    intro h
    rw [hg, if_pos h]
  refine ⟨future, fun h => future (by omega), ?_, hk, rfl⟩
  intro hle
  have hnot : ¬ att.Data.Slot > c.Time / ips := by omega
  rw [if_neg hnot] at hn
  refine ⟨?_, ?_, ?_, fn⟩
  · intro h0
    rw [hn, h0]
  · intro e h0 hlt
    rw [hn, h0]
    simp only []
    rw [if_pos hlt]
  · intro e h0 hge
    rw [hg, if_neg hnot, h0]
    simp only []
    rw [if_neg hge]

/-- C16, at a concrete input: at time 40 with 4 intervals per slot the current slot
is 10; the valid gossip vote at slot 11 leaves the store as it is, and the valid
gossip vote at slot 10 becomes the gossip entry of validator 7. -/
theorem processAttestationLocked_gossip_path_witness :
    (validateAttestationLocked 4 (emptyStore 40) (voteAt 7 11 3 5)).1 = true ∧
    processAttestationLocked 4 (emptyStore 40) (voteAt 7 11 3 5) false = emptyStore 40 ∧
    (processAttestationLocked 4 (emptyStore 40) (voteAt 7 10 3 5) false).LatestNewAttestations 7 =
      some (voteAt 7 10 3 5) :=
  ⟨by decide,
    (processAttestationLocked_gossip_path 4 (emptyStore 40) (voteAt 7 11 3 5)
      (by decide)).2.1 (by decide),
    ((processAttestationLocked_gossip_path 4 (emptyStore 40) (voteAt 7 10 3 5)
      (by decide)).2.2.1 (by decide)).1 rfl⟩

/-- C17: for an attestation whose source and target checkpoints pass the block
lookups and the slot-consistency checks, with `currentSlot + 1` within `uint64`:
`Data.Slot == currentSlot + 1` is accepted by the validation and
`Data.Slot == currentSlot + 2` is rejected, where
`currentSlot = Time / IntervalsPerSlot`. The accepted vote is stored by the block path
when the voter has no on-chain entry, and the rejected vote leaves the store as it
was on both paths. -/
theorem validateAttestationLocked_one_slot_skew (ips : Nat) (c : Store) (att : Attestation)
    (sourceBlock targetBlock : Block)
    (hs : GetBlock c att.Data.Source.Root = some sourceBlock)
    (ht : GetBlock c att.Data.Target.Root = some targetBlock)
    (h1 : sourceBlock.Slot ≤ targetBlock.Slot)
    (h2 : att.Data.Source.Slot ≤ att.Data.Target.Slot)
    (h3 : sourceBlock.Slot = att.Data.Source.Slot)
    (h4 : targetBlock.Slot = att.Data.Target.Slot)
    (hno : c.Time / ips + 1 < U64) :
    (att.Data.Slot = c.Time / ips + 1 → (validateAttestationLocked ips c att).1 = true) ∧
    (att.Data.Slot = c.Time / ips + 2 → (validateAttestationLocked ips c att).1 = false) ∧
    (att.Data.Slot = c.Time / ips + 1 → c.LatestKnownAttestations att.ValidatorID = none →
      (processAttestationLocked ips c att true).LatestKnownAttestations att.ValidatorID =
        some att) ∧
    (att.Data.Slot = c.Time / ips + 2 →
      ∀ isFromBlock, processAttestationLocked ips c att isFromBlock = c) := by
  have e : add64 (c.Time / ips) 1 = c.Time / ips + 1 := by
    unfold add64; exact Nat.mod_eq_of_lt hno
  have acc : att.Data.Slot = c.Time / ips + 1 →
      (validateAttestationLocked ips c att).1 = true := by
    intro h
    rw [validateAttestationLocked_fst_iff]
    exact ⟨sourceBlock, targetBlock, hs, ht, h1, h2, h3, h4, by omega⟩
  have rej : att.Data.Slot = c.Time / ips + 2 →
      (validateAttestationLocked ips c att).1 = false := by
    intro h
    cases hv : (validateAttestationLocked ips c att).1 with
    | false => rfl
    | true =>
      rw [validateAttestationLocked_fst_iff] at hv
      obtain ⟨_, _, _, _, _, _, _, _, hle⟩ := hv
      omega
  refine ⟨acc, rej, ?_, ?_⟩
  · intro h h0
    rw [(processAttestationLocked_block_self ips c att (acc h)).1, h0]
  · intro h isFromBlock
    exact processAttestationLocked_invalid ips c att isFromBlock (rej h)

/-- C17, at a concrete input: at time 40 with 4 intervals per slot the current slot
is 10; a vote at slot 11 is accepted and a vote at slot 12 is rejected. -/
theorem validateAttestationLocked_one_slot_skew_witness :
    (validateAttestationLocked 4 (emptyStore 40) (voteAt 7 11 3 5)).1 = true ∧
    (validateAttestationLocked 4 (emptyStore 40) (voteAt 7 12 3 5)).1 = false :=
  ⟨(validateAttestationLocked_one_slot_skew 4 (emptyStore 40) (voteAt 7 11 3 5)
      (blockAtSlot 3) (blockAtSlot 5) rfl rfl (by decide) (by decide) rfl rfl
      (by decide)).1 rfl,
    (validateAttestationLocked_one_slot_skew 4 (emptyStore 40) (voteAt 7 12 3 5)
      (blockAtSlot 3) (blockAtSlot 5) rfl rfl (by decide) (by decide) rfl rfl
      (by decide)).2.1 rfl⟩

/-- C18: `validateAttestationLocked` returns the store it was called on, whatever its
verdict; and for an attestation that fails validation `processAttestationLocked`, on
either path, returns the store as it was: both buffers, the block storage, `Time` and
every other field. The method has no error result. -/
theorem validation_never_mutates (ips : Nat) (c : Store) (att : Attestation) :
    (validateAttestationLocked ips c att).2 = c ∧
    ((validateAttestationLocked ips c att).1 = false →
      ∀ isFromBlock, processAttestationLocked ips c att isFromBlock = c) :=
  ⟨validateAttestationLocked_snd ips c att,
    fun hv isFromBlock => processAttestationLocked_invalid ips c att isFromBlock hv⟩

/-- C18, at a concrete input: the vote at slot 30 fails validation at current slot 20
and both paths leave the store with the on-chain vote of validator 7 as it was. -/
theorem validation_never_mutates_witness :
    processAttestationLocked 4 storeWithKnown (voteAt 7 30 3 5) true = storeWithKnown ∧
    processAttestationLocked 4 storeWithKnown (voteAt 7 30 3 5) false = storeWithKnown :=
  ⟨(validation_never_mutates 4 storeWithKnown (voteAt 7 30 3 5)).2 (by decide) true,
    (validation_never_mutates 4 storeWithKnown (voteAt 7 30 3 5)).2 (by decide) false⟩

/-- C19: for two attestations of different validators, each on the gossip path or the
block path, `processAttestationLocked` on the first and then the second gives the same
store, and so the same two buffers, as on the second and then the first. -/
theorem processAttestationLocked_comm (ips : Nat) (c : Store) (a1 a2 : Attestation)
    (f1 f2 : Bool) (hne : a1.ValidatorID ≠ a2.ValidatorID) :
    processAttestationLocked ips (processAttestationLocked ips c a1 f1) a2 f2 =
      processAttestationLocked ips (processAttestationLocked ips c a2 f2) a1 f1 ∧
    (processAttestationLocked ips (processAttestationLocked ips c a1 f1) a2
        f2).LatestKnownAttestations =
      (processAttestationLocked ips (processAttestationLocked ips c a2 f2) a1
        f1).LatestKnownAttestations ∧
    (processAttestationLocked ips (processAttestationLocked ips c a1 f1) a2
        f2).LatestNewAttestations =
      (processAttestationLocked ips (processAttestationLocked ips c a2 f2) a1
        f1).LatestNewAttestations := by
  obtain ⟨t1, d1, b1, s1, k1, n1⟩ := processAttestationLocked_frame ips c a1 f1
  obtain ⟨t2, d2, b2, s2, k2, n2⟩ := processAttestationLocked_frame ips c a2 f2
  obtain ⟨t12, d12, b12, s12, k12, n12⟩ :=
    processAttestationLocked_frame ips (processAttestationLocked ips c a1 f1) a2 f2
  obtain ⟨t21, d21, b21, s21, k21, n21⟩ :=
    processAttestationLocked_frame ips (processAttestationLocked ips c a2 f2) a1 f1
  obtain ⟨lk2, ln2⟩ := processAttestationLocked_local ips
    (processAttestationLocked ips c a1 f1) c a2 f2 t1 b1
    (k1 _ (Ne.symm hne)) (n1 _ (Ne.symm hne))
  obtain ⟨lk1, ln1⟩ := processAttestationLocked_local ips
    (processAttestationLocked ips c a2 f2) c a1 f1 t2 b2 (k2 _ hne) (n2 _ hne)
  have hk : (processAttestationLocked ips (processAttestationLocked ips c a1 f1) a2
        f2).LatestKnownAttestations =
      (processAttestationLocked ips (processAttestationLocked ips c a2 f2) a1
        f1).LatestKnownAttestations := by
    funext v
    by_cases h2 : v = a2.ValidatorID
    · subst h2
      rw [lk2, k21 _ (Ne.symm hne)]
    · by_cases h1 : v = a1.ValidatorID
      · subst h1
        rw [k12 _ h2, lk1]
      · rw [k12 v h2, k1 v h1, k21 v h1, k2 v h2]
  have hn : (processAttestationLocked ips (processAttestationLocked ips c a1 f1) a2
        f2).LatestNewAttestations =
      (processAttestationLocked ips (processAttestationLocked ips c a2 f2) a1
        f1).LatestNewAttestations := by
    funext v
    by_cases h2 : v = a2.ValidatorID
    · subst h2
      rw [ln2, n21 _ (Ne.symm hne)]
    · by_cases h1 : v = a1.ValidatorID
      · subst h1
        rw [n12 _ h2, ln1]
      · rw [n12 v h2, n1 v h1, n21 v h1, n2 v h2]
  refine ⟨Store_ext _ _ ?_ ?_ ?_ ?_ hk hn, hk, hn⟩
  · rw [t12, t1, t21, t2]
  · rw [d12, d1, d21, d2]
  · rw [b12, b1, b21, b2]
  · rw [s12, s1, s21, s2]

/-- C19, at a concrete input: the on-chain vote of validator 7 and the gossip vote of
validator 8 give the same entries in either order. -/
theorem processAttestationLocked_comm_witness :
    (processAttestationLocked 4 (processAttestationLocked 4 (emptyStore 40) (voteAt 7 6 3 5) true)
        (voteAt 8 9 3 6) false).LatestNewAttestations 8 = some (voteAt 8 9 3 6) ∧
    (processAttestationLocked 4 (processAttestationLocked 4 (emptyStore 40) (voteAt 8 9 3 6) false)
        (voteAt 7 6 3 5) true).LatestNewAttestations 8 = some (voteAt 8 9 3 6) :=
  have h := (processAttestationLocked_comm 4 (emptyStore 40) (voteAt 7 6 3 5) (voteAt 8 9 3 6)
    true false (by decide)).2.2
  ⟨rfl, h ▸ rfl⟩


/-! ## The gossipsub message id -/

theorem littleEndianValue_PutUint64 (v : Nat) (hv : v < U64) :
    littleEndianValue (PutUint64 v) = v := by
  unfold U64 at hv
  simp only [PutUint64, littleEndianValue]
  norm_num at hv ⊢
  omega

/-- C20: `computeMessageID` is the first 20 bytes of
`SHA256(domain || topicLenLE64 || topic || data)`: with data that snappy-decodes the
domain is `01 00 00 00` and `data` is the decoded bytes, otherwise the domain is
`00 00 00 00` and `data` is the raw `msg.Data`; `topicLenLE64` is 8 bytes that spell
the topic's byte length as a little-endian integer. With a 32-byte digest the result
is exactly 20 bytes long. -/
theorem computeMessageID_spec (snappyDecode : List Nat → Option (List Nat))
    (sha256 : List Nat → List Nat) (msg : Message)
    (hdigest : ∀ input, (sha256 input).length = 32)
    (htopic : (GetTopic msg).length < U64) :
    (∀ decoded, snappyDecode msg.Data = some decoded →
      computeMessageID snappyDecode sha256 msg =
        (sha256 ([1, 0, 0, 0] ++ PutUint64 (GetTopic msg).length ++ GetTopic msg ++
          decoded)).take 20) ∧
    (snappyDecode msg.Data = none →
      computeMessageID snappyDecode sha256 msg =
        (sha256 ([0, 0, 0, 0] ++ PutUint64 (GetTopic msg).length ++ GetTopic msg ++
          msg.Data)).take 20) ∧
    (PutUint64 (GetTopic msg).length).length = 8 ∧
    littleEndianValue (PutUint64 (GetTopic msg).length) = (GetTopic msg).length ∧
    (computeMessageID snappyDecode sha256 msg).length = 20 := by
  have hmod : (GetTopic msg).length % U64 = (GetTopic msg).length := Nat.mod_eq_of_lt htopic
  refine ⟨?_, ?_, rfl, littleEndianValue_PutUint64 _ htopic, ?_⟩
  · intro decoded hd
    unfold computeMessageID
    rw [hd]
    simp only [hmod]
    rfl
  · intro hd
    unfold computeMessageID
    rw [hd]
    simp only [hmod]
    rfl
  · unfold computeMessageID
    simp only [List.length_take, hdigest]
    decide

/-- C20, at a concrete input: with the toy decoder and digest, data `255 1 2` decodes
to `1 2` and is hashed under the domain `01 00 00 00`, data `5 1 2` does not decode
and is hashed raw under `00 00 00 00`; the topic `10 20` has length bytes
`2 0 0 0 0 0 0 0`; both ids are 20 bytes long. -/
theorem computeMessageID_spec_witness :
    computeMessageID toySnappyDecode toySha256 { Data := [255, 1, 2], Topic := some [10, 20] } =
      (toySha256 ([1, 0, 0, 0] ++ [2, 0, 0, 0, 0, 0, 0, 0] ++ [10, 20] ++ [1, 2])).take 20 ∧
    computeMessageID toySnappyDecode toySha256 { Data := [5, 1, 2], Topic := some [10, 20] } =
      (toySha256 ([0, 0, 0, 0] ++ [2, 0, 0, 0, 0, 0, 0, 0] ++ [10, 20] ++ [5, 1, 2])).take 20 ∧
    (computeMessageID toySnappyDecode toySha256
      { Data := [255, 1, 2], Topic := some [10, 20] }).length = 20 :=
  have h1 := computeMessageID_spec toySnappyDecode toySha256
    { Data := [255, 1, 2], Topic := some [10, 20] }
    (fun input => List.length_replicate 32 _) (by decide)
  have h2 := computeMessageID_spec toySnappyDecode toySha256
    { Data := [5, 1, 2], Topic := some [10, 20] }
    (fun input => List.length_replicate 32 _) (by decide)
  ⟨h1.1 [1, 2] rfl, h2.2.1 rfl, h1.2.2.2.2⟩


/-! ## Lemmas on the retry loop -/

theorem requestCount_append (a b : List SyncEvent) :
    requestCount (a ++ b) = requestCount a + requestCount b := by
  induction a with
  | nil => simp [requestCount]
  | cons e rest ih =>
    cases e with
    | wait d => simp [requestCount, ih]
    | request k => simp [requestCount, ih]; omega

/-- One evaluation of the guard and, when it holds, one pass of the loop. -/
theorem requestBlocksLoop_succ {β ε : Type} (env : SyncEnv β ε) (fuel attempt : Nat)
    (lastErr : Option ε) (trace : List SyncEvent) :
    requestBlocksLoop env (fuel + 1) attempt lastErr trace =
      if attempt ≤ maxSyncRetries then
        if attempt > 0 then
          match env.ctxDone attempt with
          | some err => some (.error (.ctx err), trace)
          | none =>
            match env.RequestBlocksByRoot attempt with
            | .ok blocks =>
              some (.ok blocks,
                trace ++ [.wait (baseRetryDelay * 2 ^ (attempt - 1))] ++ [.request attempt])
            | .error err =>
              requestBlocksLoop env fuel (attempt + 1) (some err)
                (trace ++ [.wait (baseRetryDelay * 2 ^ (attempt - 1))] ++ [.request attempt])
        else
          match env.RequestBlocksByRoot attempt with
          | .ok blocks => some (.ok blocks, trace ++ [.request attempt])
          | .error err =>
            requestBlocksLoop env fuel (attempt + 1) (some err) (trace ++ [.request attempt])
      else some (.error (.afterRetries maxSyncRetries lastErr), trace) := by
  rw [requestBlocksLoop]
  by_cases h : attempt ≤ maxSyncRetries
  · simp only [h, ↓reduceIte]
    by_cases h0 : attempt > 0
    · simp only [h0, ↓reduceIte]
      cases env.ctxDone attempt <;> rfl
    · simp only [h0, ↓reduceIte]
  · simp only [h, ↓reduceIte]

theorem requestBlocksLoop_count {β ε : Type} (env : SyncEnv β ε) (fuel : Nat) :
    ∀ (attempt : Nat) (lastErr : Option ε) (trace : List SyncEvent)
      (r : Except (SyncError ε) β) (tr : List SyncEvent),
      requestBlocksLoop env fuel attempt lastErr trace = some (r, tr) →
      requestCount tr ≤ requestCount trace + (maxSyncRetries + 1 - attempt) ∧
      ((∃ n e, r = .error (.afterRetries n e)) → attempt ≤ maxSyncRetries + 1 →
        requestCount tr = requestCount trace + (maxSyncRetries + 1 - attempt)) := by
  induction fuel with
  | zero => intro attempt lastErr trace r tr h; simp [requestBlocksLoop] at h
  | succ fuel ih =>
    intro attempt lastErr trace r tr h
    rw [requestBlocksLoop_succ] at h
    by_cases hg : attempt ≤ maxSyncRetries
    · rw [if_pos hg] at h
      by_cases h0 : attempt > 0
      · rw [if_pos h0] at h
        cases hc : env.ctxDone attempt with
        | some err =>
          rw [hc] at h
          simp only [Option.some.injEq, Prod.mk.injEq] at h
          obtain ⟨rfl, rfl⟩ := h
          exact ⟨by omega, fun ⟨n, e, he⟩ => by cases he⟩
        | none =>
          rw [hc] at h
          cases hr : env.RequestBlocksByRoot attempt with
          | ok blocks =>
            rw [hr] at h
            simp only [Option.some.injEq, Prod.mk.injEq] at h
            obtain ⟨rfl, rfl⟩ := h
            refine ⟨?_, fun ⟨n, e, he⟩ => by cases he⟩
            simp only [requestCount_append, requestCount]
            omega
          | error err =>
            rw [hr] at h
            obtain ⟨a, b⟩ := ih _ _ _ _ _ h
            simp only [requestCount_append, requestCount] at a b
            exact ⟨by omega, fun hx _ => by have := b hx (by omega); omega⟩
      · rw [if_neg h0] at h
        cases hr : env.RequestBlocksByRoot attempt with
        | ok blocks =>
          rw [hr] at h
          simp only [Option.some.injEq, Prod.mk.injEq] at h
          obtain ⟨rfl, rfl⟩ := h
          refine ⟨?_, fun ⟨n, e, he⟩ => by cases he⟩
          simp only [requestCount_append, requestCount]
          omega
        | error err =>
          rw [hr] at h
          obtain ⟨a, b⟩ := ih _ _ _ _ _ h
          simp only [requestCount_append, requestCount] at a b
          exact ⟨by omega, fun hx _ => by have := b hx (by omega); omega⟩
    · rw [if_neg hg] at h
      simp only [Option.some.injEq, Prod.mk.injEq] at h
      obtain ⟨rfl, rfl⟩ := h
      exact ⟨by omega, fun _ _ => by omega⟩

theorem requestBlocksLoop_returns {β ε : Type} (env : SyncEnv β ε) (fuel : Nat) :
    ∀ (attempt : Nat) (lastErr : Option ε) (trace : List SyncEvent),
      maxSyncRetries + 2 - attempt ≤ fuel → 1 ≤ fuel →
      ∃ r tr, requestBlocksLoop env fuel attempt lastErr trace = some (r, tr) := by
  induction fuel with
  | zero =>
    intro attempt lastErr trace _ h1
    omega
  | succ fuel ih =>
    intro attempt lastErr trace h _
    rw [requestBlocksLoop_succ]
    by_cases hg : attempt ≤ maxSyncRetries
    · rw [if_pos hg]
      by_cases h0 : attempt > 0
      · rw [if_pos h0]
        cases env.ctxDone attempt with
        | some err => exact ⟨_, _, rfl⟩
        | none =>
          cases env.RequestBlocksByRoot attempt with
          | ok blocks => exact ⟨_, _, rfl⟩
          | error err => exact ih _ _ _ (by omega) (by omega)
      · rw [if_neg h0]
        cases env.RequestBlocksByRoot attempt with
        | ok blocks => exact ⟨_, _, rfl⟩
        | error err => exact ih _ _ _ (by omega) (by omega)
    · rw [if_neg hg]
      exact ⟨_, _, rfl⟩


/-! ## The claims on the retry loop -/

/-- C21, as the code has it: for every sequence of request outcomes and every
behaviour of the context, `requestBlocksWithRetry` returns after at most
`maxSyncRetries + 1 = 4` calls of `RequestBlocksByRoot`, the first request and up to 3
retries, and it has made exactly 4 calls when it gives up with the "after 3 retries"
error. -/
theorem requestBlocksWithRetry_attempts {β ε : Type} (env : SyncEnv β ε) (fuel : Nat)
    (hf : maxSyncRetries + 2 ≤ fuel) :
    ∃ r tr, requestBlocksWithRetry env fuel = some (r, tr) ∧
      requestCount tr ≤ maxSyncRetries + 1 ∧
      requestCount tr ≤ 4 ∧
      ((∃ n e, r = .error (.afterRetries n e)) → requestCount tr = 4) := by
  obtain ⟨r, tr, h⟩ := requestBlocksLoop_returns env fuel 0 none [] (by omega) (by omega)
  obtain ⟨a, b⟩ := requestBlocksLoop_count env fuel 0 none [] r tr h
  simp only [requestCount, Nat.zero_add, Nat.sub_zero] at a b
  refine ⟨r, tr, h, a, ?_, ?_⟩
  · unfold maxSyncRetries at a; exact a
  · intro hx
    have := b hx (by omega)
    unfold maxSyncRetries at this
    exact this

/-- C21, at a concrete input: when the third request succeeds, three calls are made. -/
theorem requestBlocksWithRetry_attempts_witness :
    ∃ r tr, requestBlocksWithRetry (succeedsAt 2) 5 = some (r, tr) ∧ requestCount tr ≤ 4 :=
  have ⟨r, tr, h, _, h4, _⟩ := requestBlocksWithRetry_attempts (succeedsAt 2) 5 (by decide)
  ⟨r, tr, h, h4⟩

/-- C21 as stated fails: when every request fails and the context is never done,
`requestBlocksWithRetry` calls `RequestBlocksByRoot` four times, with `attempt` 0, 1,
2 and 3, before it gives up with the "after 3 retries" error. -/
theorem requestBlocksWithRetry_attempts_counterexample :
    requestBlocksWithRetry alwaysFailing 5 =
      some (.error (.afterRetries 3 (some 3)),
        [.request 0, .wait 1000000000, .request 1, .wait 2000000000, .request 2,
          .wait 4000000000, .request 3]) ∧
    requestCount
      [.request 0, .wait 1000000000, .request 1, .wait 2000000000, .request 2,
        .wait 4000000000, .request 3] = 4 ∧
    ¬ requestCount
      [.request 0, .wait 1000000000, .request 1, .wait 2000000000, .request 2,
        .wait 4000000000, .request 3] ≤ 3 :=
  ⟨rfl, rfl, by decide⟩

/-- C22: `requestBlocksWithRetry` makes the first request without waiting and retries
a failed request up to `maxSyncRetries = 3` times, waiting
`baseRetryDelay * 2 ^ (k - 1)`, that is 1s, 2s and 4s, before retry `k`; it returns the
blocks of the first request that succeeds, and that request is the last event; when
all four requests fail it returns the error that wraps the last failure. When the
context is done during a wait it returns the context's error without a further
request. -/
theorem requestBlocksWithRetry_backoff {β ε : Type} (env : SyncEnv β ε) (fuel : Nat)
    (hf : maxSyncRetries + 2 ≤ fuel) :
    (baseRetryDelay * 2 ^ (1 - 1) = 1 * Second ∧ baseRetryDelay * 2 ^ (2 - 1) = 2 * Second ∧
      baseRetryDelay * 2 ^ (3 - 1) = 4 * Second ∧ maxSyncRetries = 3) ∧
    (∀ b, env.RequestBlocksByRoot 0 = .ok b →
      requestBlocksWithRetry env fuel = some (.ok b, [.request 0])) ∧
    (∀ e0 b, env.RequestBlocksByRoot 0 = .error e0 → env.ctxDone 1 = none →
      env.RequestBlocksByRoot 1 = .ok b →
      requestBlocksWithRetry env fuel =
        some (.ok b, [.request 0, .wait (1 * Second), .request 1])) ∧
    (∀ e0 e1 b, env.RequestBlocksByRoot 0 = .error e0 → env.ctxDone 1 = none →
      env.RequestBlocksByRoot 1 = .error e1 → env.ctxDone 2 = none →
      env.RequestBlocksByRoot 2 = .ok b →
      requestBlocksWithRetry env fuel =
        some (.ok b,
          [.request 0, .wait (1 * Second), .request 1, .wait (2 * Second), .request 2])) ∧
    (∀ e0 e1 e2 b, env.RequestBlocksByRoot 0 = .error e0 → env.ctxDone 1 = none →
      env.RequestBlocksByRoot 1 = .error e1 → env.ctxDone 2 = none →
      env.RequestBlocksByRoot 2 = .error e2 → env.ctxDone 3 = none →
      env.RequestBlocksByRoot 3 = .ok b →
      requestBlocksWithRetry env fuel =
        some (.ok b,
          [.request 0, .wait (1 * Second), .request 1, .wait (2 * Second), .request 2,
            .wait (4 * Second), .request 3])) ∧
    (∀ e0 e1 e2 e3, env.RequestBlocksByRoot 0 = .error e0 → env.ctxDone 1 = none →
      env.RequestBlocksByRoot 1 = .error e1 → env.ctxDone 2 = none →
      env.RequestBlocksByRoot 2 = .error e2 → env.ctxDone 3 = none →
      env.RequestBlocksByRoot 3 = .error e3 →
      requestBlocksWithRetry env fuel =
        some (.error (.afterRetries 3 (some e3)),
          [.request 0, .wait (1 * Second), .request 1, .wait (2 * Second), .request 2,
            .wait (4 * Second), .request 3])) ∧
    (∀ e0 c, env.RequestBlocksByRoot 0 = .error e0 → env.ctxDone 1 = some c →
      requestBlocksWithRetry env fuel = some (.error (.ctx c), [.request 0])) ∧
    (∀ e0 e1 c, env.RequestBlocksByRoot 0 = .error e0 → env.ctxDone 1 = none →
      env.RequestBlocksByRoot 1 = .error e1 → env.ctxDone 2 = some c →
      requestBlocksWithRetry env fuel =
        some (.error (.ctx c), [.request 0, .wait (1 * Second), .request 1])) ∧
    (∀ e0 e1 e2 c, env.RequestBlocksByRoot 0 = .error e0 → env.ctxDone 1 = none →
      env.RequestBlocksByRoot 1 = .error e1 → env.ctxDone 2 = none →
      env.RequestBlocksByRoot 2 = .error e2 → env.ctxDone 3 = some c →
      requestBlocksWithRetry env fuel =
        some (.error (.ctx c),
          [.request 0, .wait (1 * Second), .request 1, .wait (2 * Second), .request 2])) := by
  obtain ⟨n, rfl⟩ : ∃ n, fuel = n + 5 := ⟨fuel - 5, by unfold maxSyncRetries at hf; omega⟩
  refine ⟨⟨by decide, by decide, by decide, rfl⟩, ?_, ?_, ?_, ?_, ?_, ?_, ?_, ?_⟩
  · intro b h0
    simp [requestBlocksWithRetry, requestBlocksLoop_succ, maxSyncRetries, h0]
  · intro e0 b h0 c1 h1
    simp [requestBlocksWithRetry, requestBlocksLoop_succ, maxSyncRetries, baseRetryDelay, Nat.mul_comm,
      h0, c1, h1]
  · intro e0 e1 b h0 c1 h1 c2 h2
    simp [requestBlocksWithRetry, requestBlocksLoop_succ, maxSyncRetries, baseRetryDelay, Nat.mul_comm,
      h0, c1, h1, c2, h2]
  · intro e0 e1 e2 b h0 c1 h1 c2 h2 c3 h3
    simp [requestBlocksWithRetry, requestBlocksLoop_succ, maxSyncRetries, baseRetryDelay, Nat.mul_comm,
      h0, c1, h1, c2, h2, c3, h3]
  · intro e0 e1 e2 e3 h0 c1 h1 c2 h2 c3 h3
    simp [requestBlocksWithRetry, requestBlocksLoop_succ, maxSyncRetries, baseRetryDelay, Nat.mul_comm,
      h0, c1, h1, c2, h2, c3, h3]
  · intro e0 c h0 c1
    simp [requestBlocksWithRetry, requestBlocksLoop_succ, maxSyncRetries, baseRetryDelay, Nat.mul_comm,
      h0, c1]
  · intro e0 e1 c h0 c1 h1 c2
    simp [requestBlocksWithRetry, requestBlocksLoop_succ, maxSyncRetries, baseRetryDelay, Nat.mul_comm,
      h0, c1, h1, c2]
  · intro e0 e1 e2 c h0 c1 h1 c2 h2 c3
    simp [requestBlocksWithRetry, requestBlocksLoop_succ, maxSyncRetries, baseRetryDelay, Nat.mul_comm,
      h0, c1, h1, c2, h2, c3]

/-- C22, at a concrete input: when the requests fail until the third one, the method
waits 1s and 2s and returns the blocks of the third request; when all four fail it
waits 1s, 2s and 4s and returns the error that wraps the fourth failure. -/
theorem requestBlocksWithRetry_backoff_witness :
    requestBlocksWithRetry (succeedsAt 2) 5 =
      some (.ok 42,
        [.request 0, .wait 1000000000, .request 1, .wait 2000000000, .request 2]) ∧
    requestBlocksWithRetry alwaysFailing 6 =
      some (.error (.afterRetries 3 (some 3)),
        [.request 0, .wait 1000000000, .request 1, .wait 2000000000, .request 2,
          .wait 4000000000, .request 3]) :=
  ⟨(requestBlocksWithRetry_backoff (succeedsAt 2) 5 (by decide)).2.2.2.1 0 1 42
      rfl rfl rfl rfl rfl,
    (requestBlocksWithRetry_backoff alwaysFailing 6 (by decide)).2.2.2.2.2.1 0 1 2 3
      rfl rfl rfl rfl rfl rfl rfl⟩


/-! ## Idempotence and monotonicity of the attestation buffers -/

/-- The voter's two entries after a second `processAttestationLocked` with the same
attestation on the same path are those after the first. -/
theorem processAttestationLocked_twice_self (ips : Nat) (c : Store) (att : Attestation)
    (isFromBlock : Bool) :
    (processAttestationLocked ips (processAttestationLocked ips c att isFromBlock) att
        isFromBlock).LatestKnownAttestations att.ValidatorID =
      (processAttestationLocked ips c att isFromBlock).LatestKnownAttestations
        att.ValidatorID ∧
    (processAttestationLocked ips (processAttestationLocked ips c att isFromBlock) att
        isFromBlock).LatestNewAttestations att.ValidatorID =
      (processAttestationLocked ips c att isFromBlock).LatestNewAttestations
        att.ValidatorID := by
  obtain ⟨t1, _, b1, _, _, _⟩ := processAttestationLocked_frame ips c att isFromBlock
  have hc := validateAttestationLocked_congr ips
    (processAttestationLocked ips c att isFromBlock) c att t1 b1
  cases hv : (validateAttestationLocked ips c att).1 with
  | false =>
    rw [processAttestationLocked_invalid ips c att isFromBlock hv,
      processAttestationLocked_invalid ips c att isFromBlock hv]
    exact ⟨rfl, rfl⟩
  | true =>
    have hv2 : (validateAttestationLocked ips
        (processAttestationLocked ips c att isFromBlock) att).1 = true := hc.trans hv
    cases isFromBlock with
    | true =>
      obtain ⟨a2, b2⟩ := processAttestationLocked_block_self ips _ att hv2
      obtain ⟨a1, b1⟩ := processAttestationLocked_block_self ips c att hv
      rw [a2, b2, a1, b1]
      constructor
      · cases c.LatestKnownAttestations att.ValidatorID with
        | none => simp
        | some e => simp only []; split_ifs <;> simp [*]
      · cases c.LatestNewAttestations att.ValidatorID with
        | none => simp
        | some n => simp only []; split_ifs <;> simp [*]
    | false =>
      obtain ⟨a2, b2⟩ := processAttestationLocked_gossip_self ips _ att hv2
      obtain ⟨a1, b1⟩ := processAttestationLocked_gossip_self ips c att hv
      rw [a2, b2, a1, b1, t1]
      refine ⟨rfl, ?_⟩
      by_cases hs : att.Data.Slot > c.Time / ips
      · simp only [hs, ↓reduceIte]
      · simp only [hs, ↓reduceIte]
        cases c.LatestNewAttestations att.ValidatorID with
        | none => simp
        | some n => simp only []; split_ifs <;> simp [*]

/-- C23: `processAttestationLocked` is idempotent: applied twice in a row with the
same attestation and the same flag it leaves the store, and so both attestation
buffers, as a single application leaves them. -/
theorem processAttestationLocked_idempotent (ips : Nat) (c : Store) (att : Attestation)
    (isFromBlock : Bool) :
    processAttestationLocked ips (processAttestationLocked ips c att isFromBlock) att
        isFromBlock =
      processAttestationLocked ips c att isFromBlock ∧
    (processAttestationLocked ips (processAttestationLocked ips c att isFromBlock) att
        isFromBlock).LatestKnownAttestations =
      (processAttestationLocked ips c att isFromBlock).LatestKnownAttestations ∧
    (processAttestationLocked ips (processAttestationLocked ips c att isFromBlock) att
        isFromBlock).LatestNewAttestations =
      (processAttestationLocked ips c att isFromBlock).LatestNewAttestations := by
  obtain ⟨t2, d2, b2, s2, k2, n2⟩ :=
    processAttestationLocked_frame ips (processAttestationLocked ips c att isFromBlock) att
      isFromBlock
  obtain ⟨sk, sn⟩ := processAttestationLocked_twice_self ips c att isFromBlock
  have hk : (processAttestationLocked ips (processAttestationLocked ips c att isFromBlock) att
        isFromBlock).LatestKnownAttestations =
      (processAttestationLocked ips c att isFromBlock).LatestKnownAttestations := by
    funext v
    by_cases h : v = att.ValidatorID
    · subst h; exact sk
    · exact k2 v h
  have hn : (processAttestationLocked ips (processAttestationLocked ips c att isFromBlock) att
        isFromBlock).LatestNewAttestations =
      (processAttestationLocked ips c att isFromBlock).LatestNewAttestations := by
    funext v
    by_cases h : v = att.ValidatorID
    · subst h; exact sn
    · exact n2 v h
  exact ⟨Store_ext _ _ t2 d2 b2 s2 hk hn, hk, hn⟩

/-- C23, at a concrete input: a second on-chain vote of validator 7 at slot 6 leaves
the entries of validator 7 as the first left them. -/
theorem processAttestationLocked_idempotent_witness :
    (processAttestationLocked 4 (processAttestationLocked 4 storeScenarioC (voteAt 7 6 3 5) true)
        (voteAt 7 6 3 5) true).LatestKnownAttestations 7 = some (voteAt 7 6 3 5) ∧
    (processAttestationLocked 4 (processAttestationLocked 4 storeScenarioC (voteAt 7 6 3 5) true)
        (voteAt 7 6 3 5) true).LatestNewAttestations 7 = none :=
  have h := processAttestationLocked_idempotent 4 storeScenarioC (voteAt 7 6 3 5) true
  ⟨h.2.1 ▸ rfl, h.2.2 ▸ rfl⟩

/-- C24: after `processAttestationLocked` for an attestation of validator `v`, the
entries of every other validator in both buffers are unchanged; if `v` had an
on-chain entry it still has one and its `Data.Slot` has not decreased; and if `v` has
a gossip entry both before and after, its `Data.Target.Slot` has not decreased. -/
theorem processAttestationLocked_monotone (ips : Nat) (c : Store) (att : Attestation)
    (isFromBlock : Bool) :
    (∀ v, v ≠ att.ValidatorID →
      (processAttestationLocked ips c att isFromBlock).LatestKnownAttestations v =
        c.LatestKnownAttestations v ∧
      (processAttestationLocked ips c att isFromBlock).LatestNewAttestations v =
        c.LatestNewAttestations v) ∧
    (∀ k, c.LatestKnownAttestations att.ValidatorID = some k →
      ∃ k', (processAttestationLocked ips c att isFromBlock).LatestKnownAttestations
          att.ValidatorID = some k' ∧ k.Data.Slot ≤ k'.Data.Slot) ∧
    (∀ n n', c.LatestNewAttestations att.ValidatorID = some n →
      (processAttestationLocked ips c att isFromBlock).LatestNewAttestations
        att.ValidatorID = some n' →
      n.Data.Target.Slot ≤ n'.Data.Target.Slot) := by
  obtain ⟨_, _, _, _, fk, fn⟩ := processAttestationLocked_frame ips c att isFromBlock
  refine ⟨fun v h => ⟨fk v h, fn v h⟩, ?_, ?_⟩
  · intro k hk
    cases hv : (validateAttestationLocked ips c att).1 with
    | false =>
      rw [processAttestationLocked_invalid ips c att isFromBlock hv]
      exact ⟨k, hk, le_refl _⟩
    | true =>
      cases isFromBlock with
      | true =>
        rw [(processAttestationLocked_block_self ips c att hv).1, hk]
        simp only []
        split_ifs with h
        · exact ⟨att, rfl, by omega⟩
        · exact ⟨k, rfl, le_refl _⟩
      | false =>
        rw [(processAttestationLocked_gossip_self ips c att hv).1]
        exact ⟨k, hk, le_refl _⟩
  · intro n n' hn hn'
    cases hv : (validateAttestationLocked ips c att).1 with
    | false =>
      rw [processAttestationLocked_invalid ips c att isFromBlock hv, hn] at hn'
      injection hn' with hn'
      subst hn'
      exact le_refl _
    | true =>
      cases isFromBlock with
      | true =>
        rw [(processAttestationLocked_block_self ips c att hv).2, hn] at hn'
        simp only [] at hn'
        split_ifs at hn' with h
        injection hn' with hn'
        subst hn'
        exact le_refl _
      | false =>
        rw [(processAttestationLocked_gossip_self ips c att hv).2, hn] at hn'
        simp only [] at hn'
        split_ifs at hn' with h1 h2
        · injection hn' with hn'
          subst hn'
          exact le_refl _
        · injection hn' with hn'
          subst hn'
          omega
        · injection hn' with hn'
          subst hn'
          exact le_refl _

/-- C24, at a concrete input: validator 7 has the on-chain vote at slot 10; after its
on-chain vote at slot 11 the entry is at slot 11, and after its on-chain vote at slot
9 the entry is still the one at slot 10. -/
theorem processAttestationLocked_monotone_witness :
    (∃ k', (processAttestationLocked 4 storeWithKnown (voteAt 7 11 3 4)
        true).LatestKnownAttestations 7 = some k' ∧ 10 ≤ k'.Data.Slot) ∧
    (∃ k', (processAttestationLocked 4 storeWithKnown (voteAt 7 9 3 4)
        true).LatestKnownAttestations 7 = some k' ∧ 10 ≤ k'.Data.Slot) :=
  ⟨(processAttestationLocked_monotone 4 storeWithKnown (voteAt 7 11 3 4) true).2.1
      (voteAt 7 10 3 5) rfl,
    (processAttestationLocked_monotone 4 storeWithKnown (voteAt 7 9 3 4) true).2.1
      (voteAt 7 10 3 5) rfl⟩

end Gean
